import Mathlib

/-!
Verification of the Igor binary-wave codec in `paul/loader/igor.py`.

The embedding models byte buffers and streams as `List Nat` (each entry one
byte, `< 256`), mirroring the Python 2 byte strings used by the source.
Machine integers are modelled as `Int`/`Nat` with explicit `% 2^w`
arithmetic where the source relies on fixed-width behaviour.  Fallible code
returns `Except Err`.  Every recursive definition is structural or driven
by an explicit fuel so that all definitions evaluate by kernel reduction.

The helper modules `paul.base.struct_helper` (the `Structure`/`Field`
packing layer) and `paul.base.wave` (the numpy `Wave` subclass) are not
part of the sources; where their behaviour decides a claim it is modelled
from the spec, as noted in the corresponding doc comments.
-/

namespace Igor

/-! ### Bytes, integers -/

abbrev Bytes := List Nat

inductive ByteOrder where
  | little
  | big
  deriving DecidableEq, Repr

/-- Little-endian value of a byte list (first byte least significant). -/
def leVal : Bytes → Nat
  | [] => 0
  | b :: r => b + 256 * leVal r

/-- Value of a byte list in the given order ('<' or '>'). -/
def ordVal (bo : ByteOrder) (l : Bytes) : Nat :=
  match bo with
  | .little => leVal l
  | .big => leVal l.reverse

/-- Reinterpret an unsigned `w`-byte value as the signed two's-complement value. -/
def toSigned (w : Nat) (n : Nat) : Int :=
  if n < 2 ^ (8 * w - 1) then (n : Int) else (n : Int) - 2 ^ (8 * w)

/-- `w` little-endian bytes of the natural number `n` (mod `2^(8w)`). -/
def natLE : Nat → Nat → Bytes
  | 0, _ => []
  | w + 1, n => n % 256 :: natLE w (n / 256)

/-- Pack the integer `v` into `w` little-endian bytes, two's complement. -/
def packLE (w : Nat) (v : Int) : Bytes :=
  natLE w (v % (2 ^ (8 * w))).toNat

/-- `s[off : off+len]` on byte buffers. -/
def sliceB (s : Bytes) (off len : Nat) : Bytes :=
  (s.drop off).take len

/-- `s[-n:]` on byte buffers (for `n ≤ len s`; otherwise the whole list). -/
def takeLastB (s : Bytes) (n : Nat) : Bytes :=
  s.drop (s.length - n)

/-- Unsigned field of `len` bytes at offset `off` of buffer `s`. -/
def readU (bo : ByteOrder) (s : Bytes) (off len : Nat) : Nat :=
  ordVal bo (sliceB s off len)

/-- Signed field of `len` bytes at offset `off` of buffer `s`. -/
def readI (bo : ByteOrder) (s : Bytes) (off len : Nat) : Int :=
  toSigned len (readU bo s off len)

/-- ASCII bytes of a Lean string literal (used to name Python byte strings). -/
def bsAux : List Char → Bytes
  | [] => []
  | c :: r => c.toNat :: bsAux r

def bs (s : String) : Bytes := bsAux s.data

/-- Decidable equality for `Except` results, so closed runs can be checked
by `decide`. -/
instance exceptDecEq {ε α : Type} [DecidableEq ε] [DecidableEq α] :
    DecidableEq (Except ε α) := fun x y =>
  match x, y with
  | .ok a, .ok b =>
    if h : a = b then isTrue (by rw [h]) else isFalse (by intro hh; cases hh; exact h rfl)
  | .error a, .error b =>
    if h : a = b then isTrue (by rw [h]) else isFalse (by intro hh; cases hh; exact h rfl)
  | .ok _, .error _ => isFalse (by intro hh; cases hh)
  | .error _, .ok _ => isFalse (by intro hh; cases hh)

/-! ### Errors

One constructor per Python exception kind the modelled code can raise. -/

inductive Err where
  | formatError
  | versionError (expected actual : Int)
  | shortRead
  | shortBuffer
  | assertionError
  | keyError
  | attributeError
  | typeError
  | notImplementedError
  | valueError
  | seekError
  | structError
  | noFuel
  deriving DecidableEq, Repr

/-! ### ChecksumEngine (`checksum`, igor.py lines 318-336) -/

/-- One 16-bit signed value from two bytes in the given order
(`numpy.dtype(byte_order+'h')`). -/
def int16of (bo : ByteOrder) (b0 b1 : Nat) : Int :=
  toSigned 2 (ordVal bo [b0, b1])

/-- The `numbytes/2`-element `int16` view of the buffer taken by
`numpy.ndarray` inside `checksum`; `none` when the buffer is too small
(numpy raises in that case). -/
def readShorts (bo : ByteOrder) : Nat → Bytes → Option (List Int)
  | 0, _ => some []
  | n + 1, b0 :: b1 :: r => (readShorts bo n r).map (fun l => int16of bo b0 b1 :: l)
  | _ + 1, _ => none

/-- The source's conditional rollover fold:
`if oldcksum > 2**31: oldcksum %= 2**32; if oldcksum > 2**31: oldcksum -= 2**31`. -/
def checksumFold (s : Int) : Int :=
  if s > 2 ^ 31 then
    let m := s % 2 ^ 32
    if m > 2 ^ 31 then m - 2 ^ 31 else m
  else s

/-- The arithmetic part of `checksum` applied to the decoded shorts:
accumulate, fold, check the source's `assert`, truncate to signed 16 bits.
`.error .assertionError` models a failing `assert`. -/
def checksumCore (oldcksum : Int) (xs : List Int) : Except Err Int :=
  let s : Int := oldcksum + xs.sum
  let s1 : Int := checksumFold s
  if -2 ^ 31 ≤ s1 ∧ s1 < 2 ^ 31 then
    let chk := s1 % 65536
    .ok (if chk ≥ 2 ^ 15 then chk - 65536 else chk)
  else .error .assertionError

/--
`checksum(buffer, byte_order, oldcksum, numbytes)`: sum the first
`numbytes/2` shorts onto `oldcksum` (exact integer sum, as numpy's int64
accumulator performs for all realistic sizes), apply the source's
conditional folding, check the source's `assert`, and truncate to a signed
16-bit result.  `.error .shortBuffer` models the numpy buffer-too-small
`TypeError`.
-/
def checksum (buffer : Bytes) (bo : ByteOrder) (oldcksum : Int) (numbytes : Nat) :
    Except Err Int :=
  match readShorts bo (numbytes / 2) buffer with
  | none => .error .shortBuffer
  | some xs => checksumCore oldcksum xs

/-- The arithmetic of the checksum the spec describes (claim C2): exact
mod-`2^32` wraparound into `[-2^31, 2^31)` (true C `int` overflow), then
truncation to the signed low 16 bits. -/
def checksumSpecCore (oldcksum : Int) (xs : List Int) : Except Err Int :=
  let s : Int := oldcksum + xs.sum
  let s32 : Int := (s + 2 ^ 31) % 2 ^ 32 - 2 ^ 31
  let chk := s32 % 65536
  .ok (if chk ≥ 2 ^ 15 then chk - 65536 else chk)

/--
The checksum the spec describes (claim C2): sum the shorts and the seed,
fold with exact mod-`2^32` wraparound into `[-2^31, 2^31)` (true C `int`
overflow), then truncate to the signed low 16 bits.
-/
def checksum_spec (buffer : Bytes) (bo : ByteOrder) (oldcksum : Int) (numbytes : Nat) :
    Except Err Int :=
  match readShorts bo (numbytes / 2) buffer with
  | none => .error .shortBuffer
  | some xs => checksumSpecCore oldcksum xs

/-- Input exhibiting the C2 failure: 65538 shorts of value `32767` and one
short of value `2`, little-endian, so the accumulated sum is exactly
`2^31`. -/
def c2buf : Bytes := (List.replicate 65538 ([255, 127] : Bytes)).flatten ++ [2, 0]

/-- Input exhibiting the C10 failure: 65537 little-endian shorts of value
`-32768`, so the accumulated sum is `-2^31 - 32768`, strictly below the
signed 32-bit range, and the folding branch (which only fires for sums
`> 2^31`) leaves it untouched. -/
def c10buf : Bytes := (List.replicate 65537 ([0, 128] : Bytes)).flatten

/-! ### Python values

Values the note channel manipulates: Python ints, byte strings, lists and
dicts.  Lists and dicts are encoded with explicit cons constructors so that
all recursion over them is structural. -/

inductive PyVal where
  | num (n : Int)
  | str (s : Bytes)
  | listNil
  | listCons (hd tl : PyVal)
  | dictNil
  | dictCons (k : Bytes) (v tl : PyVal)
  deriving DecidableEq, Repr

def PyVal.ofList : List PyVal → PyVal
  | [] => .listNil
  | v :: r => .listCons v (PyVal.ofList r)

def PyVal.ofDict : List (Bytes × PyVal) → PyVal
  | [] => .dictNil
  | (k, v) :: r => .dictCons k v (PyVal.ofDict r)

/-- `d[key]` on a Python dict (`none` = `KeyError`). -/
def pyDictLookup : PyVal → Bytes → Option PyVal
  | .dictCons k v t, key => if k = key then some v else pyDictLookup t key
  | _, _ => none

/-- `d[key] = x` on a Python dict: replace in place, else append. -/
def pyDictSet : PyVal → Bytes → PyVal → PyVal
  | .dictCons k v t, key, x =>
    if k = key then .dictCons k x t else .dictCons k v (pyDictSet t key x)
  | .dictNil, key, x => .dictCons key x .dictNil
  | v, _, _ => v

/-- `a.update(b)` on Python dicts: set every entry of `b` into `a` in order. -/
def pyDictUpdate : PyVal → PyVal → PyVal
  | info, .dictCons k v t => pyDictUpdate (pyDictSet info k v) t
  | info, _ => info

def isPyList : PyVal → Bool
  | .listNil => true
  | .listCons _ _ => true
  | _ => false

def isPyDict : PyVal → Bool
  | .dictNil => true
  | .dictCons _ _ _ => true
  | _ => false

/-- `l.append(x)` on a Python list. -/
def pyListAppend : PyVal → PyVal → PyVal
  | .listNil, x => .listCons x .listNil
  | .listCons h t, x => .listCons h (pyListAppend t x)
  | v, _ => v

/-! ### Byte-string helpers (Python 2 `str` methods) -/

/-- The characters Python's `str.strip()` removes. -/
def isSpaceB (b : Nat) : Bool :=
  (b = 32) || (b = 9) || (b = 10) || (b = 13) || (b = 11) || (b = 12)

/-- Python `s.strip()`. -/
def stripB (l : Bytes) : Bytes :=
  ((l.dropWhile isSpaceB).reverse.dropWhile isSpaceB).reverse

/-- Python `s.split(sep)` for a one-byte separator (no maxsplit: every
occurrence splits).  Always returns at least one piece. -/
def splitOnByte (sep : Nat) : Bytes → List Bytes
  | [] => [[]]
  | b :: r =>
    match splitOnByte sep r with
    | h :: t => if b = sep then [] :: h :: t else (b :: h) :: t
    | [] => [[]]

/-- Python `s.split()` (split on whitespace runs, dropping empty pieces);
fuel-driven so that it evaluates by kernel reduction. -/
def splitWsAux : Nat → Bytes → List Bytes
  | 0, _ => []
  | f + 1, l =>
    let l1 := l.dropWhile isSpaceB
    match l1 with
    | [] => []
    | _ =>
      l1.takeWhile (fun b => !isSpaceB b) ::
        splitWsAux f (l1.dropWhile (fun b => !isSpaceB b))

def splitWs (l : Bytes) : List Bytes := splitWsAux l.length l

def isDigitB (b : Nat) : Bool := 48 ≤ b && b ≤ 57

def digitsToNat (l : Bytes) : Nat := l.foldl (fun a b => 10 * a + (b - 48)) 0

/-- Decimal rendering of a natural number; fuel-driven (`n` itself is
enough fuel since `n/10 < n`). -/
def natDigitsAux : Nat → Nat → Bytes
  | 0, _ => []
  | f + 1, n => if n = 0 then [] else natDigitsAux f (n / 10) ++ [48 + n % 10]

def natBytes10 (n : Nat) : Bytes := if n = 0 then [48] else natDigitsAux n n

/-- Python `str(i)` for an int. -/
def intBytes (i : Int) : Bytes :=
  if i < 0 then 45 :: natBytes10 (-i).toNat else natBytes10 i.toNat

/-- Modelled from the spec: the note grammar "attempts the value as a
number" (the source uses Python `eval` and falls back on any exception);
modelled as optional-sign decimal integer literals, the numeric forms the
note channel round-trips.  General Python expressions, floats and octal
literals are out of scope of this model. -/
def evalNum (l : Bytes) : Option Int :=
  match l with
  | 45 :: ds => if !ds.isEmpty && ds.all isDigitB then some (-(digitsToNat ds : Int)) else none
  | ds => if !ds.isEmpty && ds.all isDigitB then some ((digitsToNat ds : Int)) else none

/-! ### NoteParser (`wave_note_parse_simple`, igor.py lines 353-454) -/

/-- Value interpretation of `val_str`: try it as a number, else split on
whitespace and try each token as a number, collecting a Python list.
(The source's final except-branch returning the raw string is unreachable:
the token loop catches all its own exceptions.) -/
def noteEvalVal (valStr : Bytes) : PyVal :=
  match evalNum valStr with
  | some n => .num n
  | none =>
    PyVal.ofList ((splitWs valStr).map fun t =>
      match evalNum t with
      | some n => PyVal.num n
      | none => PyVal.str t)

/-- Parse state: the root map `nmap` plus the currently open block
(`cur = none` models `cur_map is nmap`). -/
structure NoteSt where
  nmap : PyVal
  cur : Option (Bytes × PyVal)
  deriving DecidableEq

/-- Commit the open block (if any): `nmap[cur_map_name] = cur_map`. -/
def noteCommit (st : NoteSt) : PyVal :=
  match st.cur with
  | some (nm, m) => pyDictSet st.nmap nm m
  | none => st.nmap

/-- One line of the note-parsing loop. -/
def noteLineStep (strict : Bool) (st : NoteSt) (n : Bytes) : Except Err NoteSt :=
  let line := stripB n
  if line.length = 0 then
    (if st.cur.isSome && strict then .ok ⟨noteCommit st, none⟩ else .ok st)
  else if st.cur.isSome && line == [46] then
    .ok ⟨noteCommit st, none⟩
  else if line.head? == some 91 && line.getLast? == some 93 then
    .ok ⟨noteCommit st, some ((line.drop 1).dropLast, PyVal.dictNil)⟩
  else
    match splitOnByte 61 line with
    | k :: v :: _ =>
      let key := stripB k
      let val := noteEvalVal (stripB v)
      (match st.cur with
       | some (nm, m) => .ok ⟨st.nmap, some (nm, pyDictSet m key val)⟩
       | none => .ok ⟨pyDictSet st.nmap key val, none⟩)
    | _ =>
      match pyDictLookup st.nmap (bs "strays") with
      | none => .error .keyError
      | some sv =>
        if isPyList sv then
          .ok ⟨noteCommit ⟨pyDictSet st.nmap (bs "strays")
            (pyListAppend sv (.str (stripB n))), st.cur⟩, none⟩
        else .error .attributeError

def noteFoldLines (strict : Bool) : NoteSt → List Bytes → Except Err NoteSt
  | st, [] => .ok st
  | st, l :: r =>
    match noteLineStep strict st l with
    | .error e => .error e
    | .ok st1 => noteFoldLines strict st1 r

/-- `wave_note_parse_simple(notestr, strict_blocks)`: normalise `\r` to
`\n`, split into lines, run the block state machine, commit any open
block.  Returns the note map (a Python dict). -/
def wave_note_parse_simple (notestr : Bytes) (strict : Bool := false) : Except Err PyVal :=
  let lines := splitOnByte 10 (notestr.map fun b => if b = 13 then 10 else b)
  match noteFoldLines strict ⟨.dictCons (bs "strays") .listNil .dictNil, none⟩ lines with
  | .error e => .error e
  | .ok st => .ok (noteCommit st)

/-- The key-value line handling claim C5 describes: the same state machine,
but the value is everything after the FIRST `=` (the source instead keeps
only the segment between the first and second `=`). -/
def noteLineStepC5spec (strict : Bool) (st : NoteSt) (n : Bytes) : Except Err NoteSt :=
  let line := stripB n
  if line.length = 0 then
    (if st.cur.isSome && strict then .ok ⟨noteCommit st, none⟩ else .ok st)
  else if st.cur.isSome && line == [46] then
    .ok ⟨noteCommit st, none⟩
  else if line.head? == some 91 && line.getLast? == some 93 then
    .ok ⟨noteCommit st, some ((line.drop 1).dropLast, PyVal.dictNil)⟩
  else
    match splitOnByte 61 line with
    | k :: v :: rest =>
      let key := stripB k
      let remainder := ((v :: rest).foldl (fun a p => a ++ [61] ++ p) []).drop 1
      let val := noteEvalVal (stripB remainder)
      (match st.cur with
       | some (nm, m) => .ok ⟨st.nmap, some (nm, pyDictSet m key val)⟩
       | none => .ok ⟨pyDictSet st.nmap key val, none⟩)
    | _ =>
      match pyDictLookup st.nmap (bs "strays") with
      | none => .error .keyError
      | some sv =>
        if isPyList sv then
          .ok ⟨noteCommit ⟨pyDictSet st.nmap (bs "strays")
            (pyListAppend sv (.str (stripB n))), st.cur⟩, none⟩
        else .error .attributeError

def noteFoldLinesC5spec (strict : Bool) : NoteSt → List Bytes → Except Err NoteSt
  | st, [] => .ok st
  | st, l :: r =>
    match noteLineStepC5spec strict st l with
    | .error e => .error e
    | .ok st1 => noteFoldLinesC5spec strict st1 r

def wave_note_parse_c5spec (notestr : Bytes) (strict : Bool := false) : Except Err PyVal :=
  let lines := splitOnByte 10 (notestr.map fun b => if b = 13 then 10 else b)
  match noteFoldLinesC5spec strict ⟨.dictCons (bs "strays") .listNil .dictNil, none⟩ lines with
  | .error e => .error e
  | .ok st => .ok (noteCommit st)

/-! ### NoteWriter (`wave_note_generate`, igor.py lines 458-517) -/

def reserved5 : List Bytes := [bs "debug", bs "strays", bs "axes", bs "name", bs "tmp"]

def reserved4 : List Bytes := [bs "debug", bs "strays", bs "axes", bs "name"]

/-- Rendering modes of Python `str`/`repr` as the note writer uses them:
`plain` is `str(v)`, `reprM` is `repr(v)` (strings quoted), `items` renders
the comma-separated inside of a list or dict. -/
inductive StrMode where
  | plain
  | reprM
  | items
  deriving DecidableEq

def pyStrM : StrMode → PyVal → Bytes
  | _, .num n => intBytes n
  | m, .str s => if m = .plain then s else [39] ++ s ++ [39]
  | m, .listNil => if m = .items then [] else [91, 93]
  | m, .listCons h t =>
    let inner := pyStrM .reprM h ++
      (match t with | .listNil => ([] : Bytes) | _ => bs ", ") ++ pyStrM .items t
    if m = .items then inner else [91] ++ inner ++ [93]
  | m, .dictNil => if m = .items then [] else [123, 125]
  | m, .dictCons k v t =>
    let inner := [39] ++ k ++ [39] ++ bs ": " ++ pyStrM .reprM v ++
      (match t with | .dictNil => ([] : Bytes) | _ => bs ", ") ++ pyStrM .items t
    if m = .items then inner else [123] ++ inner ++ [125]

/-- One entry of the writer's first (root scalar) pass: reserved keys and
dict values are skipped, anything else becomes `key = str(value)\n`.
(The source's `hasattr(v, "__iter__")` branch and its else branch both
render as `str(v)` under `"%s"` formatting.) -/
def note_gen_root_entry (k : Bytes) (v : PyVal) : Bytes :=
  if k ∈ reserved5 then []
  else if isPyDict v then []
  else k ++ bs " = " ++ pyStrM .plain v ++ [10]

/-- The `[blockname]` line of a sub-map section. -/
def note_gen_block_head (blockPfx k : Bytes) : Bytes :=
  [91] ++ (if blockPfx.length > 0 then blockPfx ++ k else k) ++ [93, 10]

/-- The third pass: the stray lines, one per element of
`infomap["strays"]`, each rendered with `str`.  A string iterates over its
characters, mirroring Python iteration; non-iterable values raise
`TypeError` in Python and render nothing here (claims over this pass
restrict `strays` to a list). -/
def genStraysList : PyVal → Bytes
  | .listCons h t => pyStrM .plain h ++ [10] ++ genStraysList t
  | .str (c :: r) => c :: 10 :: genStraysList (.str r)
  | _ => []

def genStrays (m : PyVal) : Bytes :=
  match pyDictLookup m (bs "strays") with
  | none => []
  | some v => genStraysList v

/-- The recursion jobs of `wave_note_generate`: the whole writer on a map,
its root pass, or its sub-map pass. -/
inductive GenJob where
  | whole (m : PyVal) (blockPfx : Bytes)
  | roots (m : PyVal)
  | blocks (blockPfx : Bytes) (m : PyVal)

/-- Fuel-driven core of `wave_note_generate`; the wrapper always supplies
sufficient fuel, so the zero case is unreachable. -/
def genAux : Nat → GenJob → Bytes
  | 0, _ => []
  | f + 1, .whole m pfx =>
    genAux f (.roots m) ++ [10] ++ genAux f (.blocks pfx m) ++ [10] ++ genStrays m
  | f + 1, .roots (.dictCons k v t) => note_gen_root_entry k v ++ genAux f (.roots t)
  | _ + 1, .roots _ => []
  | f + 1, .blocks pfx (.dictCons k v t) =>
    (if k ∈ reserved4 then []
     else if isPyDict v then note_gen_block_head pfx k ++ genAux f (.whole v [])
     else []) ++ genAux f (.blocks pfx t)
  | _ + 1, .blocks _ _ => []

/-- Structural fuel bound for `genAux`. -/
def pvFuel : PyVal → Nat
  | .num _ => 1
  | .str _ => 1
  | .listNil => 1
  | .dictNil => 1
  | .listCons h t => pvFuel h + pvFuel t + 1
  | .dictCons _ v t => pvFuel v + pvFuel t + 1

/-- `wave_note_generate(infomap, block_prefix)` (the recursive call inside
the sub-map pass passes an empty prefix, as the source does). -/
def wave_note_generate (infomap : PyVal) (blockPfx : Bytes := []) : Bytes :=
  genAux (2 * pvFuel infomap + 2) (.whole infomap blockPfx)

/-- One entry of the writer's second (sub-map section) pass, with `f` the
fuel available for the recursive call. -/
def note_gen_block_entry (f : Nat) (blockPfx k : Bytes) (v : PyVal) : Bytes :=
  if k ∈ reserved4 then []
  else if isPyDict v then note_gen_block_head blockPfx k ++ genAux f (.whole v [])
  else []

/-! ### HeaderCodec

Structure sizes follow the `BinHeader*`/`WaveHeader*` field declarations of
the source (igor.py lines 100-235).  Modelled from the spec: the packing
layer `paul.base.struct_helper` is not under src/; it is modelled as plain
fixed-layout standard-size struct packing in the detected byte order, with
`P` (pointer) fields 4 bytes wide as in the TN003 file format the
declarations transcribe. -/

def BinHeader1_size : Nat := 8
def BinHeader2_size : Nat := 16
def BinHeader3_size : Nat := 18
def BinHeader5_size : Nat := 64
def WaveHeader2_size : Nat := 126
def WaveHeader5_size : Nat := 324

/-- `wave_get_reading_structs(version, byte_order)`: the (container header
size, wave header size, checksum span) for a version — the v5 span drops
the trailing 4-byte `wData` field; unsupported versions raise
`FormatError`. -/
def wave_get_reading_structs (version : Int) : Except Err (Nat × Nat × Nat) :=
  if version = 1 then .ok (BinHeader1_size, WaveHeader2_size, BinHeader1_size + WaveHeader2_size)
  else if version = 2 then .ok (BinHeader2_size, WaveHeader2_size, BinHeader2_size + WaveHeader2_size)
  else if version = 3 then .ok (BinHeader3_size, WaveHeader2_size, BinHeader3_size + WaveHeader2_size)
  else if version = 5 then .ok (BinHeader5_size, WaveHeader5_size, BinHeader5_size + WaveHeader5_size - 4)
  else .error .formatError

/-- The decoded wave-header fields the reader uses (`wave_info`). -/
structure WaveInfoM where
  type : Int := 0
  npnts : Int := 0
  bname : Bytes := []
  name : Bytes := []
  nDim : List Int := []
  sfA : List Bytes := []
  sfB : List Bytes := []
  hasSf : Bool := false
  deriving DecidableEq, Repr

/-- The decoded container-header fields plus the derived entries
(`bin_info`, including `tail_size`, `wave_data_size`, `tail_data`,
`byte_order` and the post-data additions). -/
structure BinInfoM where
  version : Int := 0
  wfmSize : Int := 0
  noteSize : Int := 0
  formulaSize : Int := 0
  dataEUnitsSize : Int := 0
  dimEUnitsSize : List Int := []
  dimLabelsSize : List Int := []
  sIndicesSize : Int := 0
  tail_size : Nat := 0
  wave_data_size : Int := 0
  tail_data : Bytes := []
  byte_order : ByteOrder := .little
  note : Bytes := []
  formula : Bytes := []
  deriving DecidableEq, Repr

/-- Unpack the version-`v` container header from buffer `b` (offsets per
the `BinHeader*` field lists; the v3 `wfmSize` is a signed short). -/
def unpackBin (version : Int) (bo : ByteOrder) (b : Bytes) : BinInfoM :=
  if version = 1 then
    { version, wfmSize := readI bo b 2 4, byte_order := bo }
  else if version = 2 then
    { version, wfmSize := readI bo b 2 4, noteSize := readI bo b 6 4, byte_order := bo }
  else if version = 3 then
    { version, wfmSize := readI bo b 2 2, noteSize := readI bo b 4 4,
      formulaSize := readI bo b 8 4, byte_order := bo }
  else
    { version,
      wfmSize := readI bo b 4 4, formulaSize := readI bo b 8 4, noteSize := readI bo b 12 4,
      dataEUnitsSize := readI bo b 16 4,
      dimEUnitsSize := [readI bo b 20 4, readI bo b 24 4, readI bo b 28 4, readI bo b 32 4],
      dimLabelsSize := [readI bo b 36 4, readI bo b 40 4, readI bo b 44 4, readI bo b 48 4],
      sIndicesSize := readI bo b 52 4, byte_order := bo }

/-- Unpack the wave header from buffer `b` at offset `off` (the container
header size): `WaveHeader5` for v5, `WaveHeader2` otherwise. -/
def unpackWave (version : Int) (bo : ByteOrder) (b : Bytes) (off : Nat) : WaveInfoM :=
  if version = 5 then
    { npnts := readI bo b (off + 12) 4, type := readI bo b (off + 16) 2,
      bname := sliceB b (off + 28) 32,
      nDim := [readI bo b (off + 68) 4, readI bo b (off + 72) 4,
               readI bo b (off + 76) 4, readI bo b (off + 80) 4],
      sfA := [sliceB b (off + 84) 8, sliceB b (off + 92) 8,
              sliceB b (off + 100) 8, sliceB b (off + 108) 8],
      sfB := [sliceB b (off + 116) 8, sliceB b (off + 124) 8,
              sliceB b (off + 132) 8, sliceB b (off + 140) 8],
      hasSf := true }
  else
    { type := readI bo b (off + 0) 2, npnts := readI bo b (off + 42) 4,
      bname := sliceB b (off + 6) 20, hasSf := false }

/-- Version detection (igor.py lines 532-539): read the version short in
host (little-endian) order; a zero low byte means the file uses the
opposite order, so reread it big-endian.  `none` when fewer than two bytes
are available. -/
def detectVersion (s : Bytes) (pos : Nat) : Option (Int × ByteOrder) :=
  let b0 := sliceB s pos 2
  if b0.length < 2 then none
  else
    let vHost : Int := toSigned 2 (leVal b0)
    if vHost % 256 = 0 then some (toSigned 2 (ordVal .big b0), .big)
    else some (vHost, .little)

/-- `wave_read_header(f)` on stream `s` at position `pos`: detect version
and byte order, read the two contiguous headers, verify the checksum
(`VersionError` on mismatch), unpack both headers, and derive `tail_size`,
`wave_data_size`, `tail_data` and the wave name (`''.join(bname)`, which
on Python 2 byte strings is the raw fixed-width field).  Returns
`(wave_info, bin_info, position after the headers)`. -/
def wave_read_header (s : Bytes) (pos : Nat) : Except Err (WaveInfoM × BinInfoM × Nat) :=
  match detectVersion s pos with
  | none => .error .shortRead
  | some (version, bo) =>
    match wave_get_reading_structs version with
    | .error e => .error e
    | .ok (binSize, waveSize, ckSize) =>
      let b := sliceB s pos (binSize + waveSize)
      match checksum b bo 0 ckSize with
      | .error e => .error e
      | .ok c =>
        if c ≠ 0 then .error (.versionError 0 c)
        else if b.length < binSize + waveSize then .error .shortRead
        else
          let bin0 := unpackBin version bo b
          let wave0 := unpackWave version bo b binSize
          let tailSize : Nat := if version = 5 then 4 else 16
          let wds : Int :=
            if version = 5 then bin0.wfmSize - ((waveSize : Int) - (tailSize : Int))
            else bin0.wfmSize - (waveSize : Int)
          .ok ({ wave0 with name := wave0.bname },
               { bin0 with
                 tail_size := tailSize, wave_data_size := wds,
                 tail_data := takeLastB b tailSize },
               pos + binSize + waveSize)

/-- `f.read(size)` from position `pos`, returning the bytes and the new
position; Python's `read` returns everything remaining when `size` is
negative and stops short at end of stream. -/
def readF (s : Bytes) (pos : Nat) (size : Int) : Bytes × Nat :=
  if size < 0 then (s.drop pos, s.length)
  else (sliceB s pos size.toNat, min (pos + size.toNat) s.length)

/-- `TYPE_TABLE[t]` reduced to the data the reader needs: `numpy.dtype` of
the table entry as (itemsize, component size for byte swapping).  `none`
is a `KeyError`; code 0 holds `None` and `numpy.dtype(None)` is float64. -/
def TYPE_TABLE_sizes (t : Int) : Option (Nat × Nat) :=
  if t = 0 then some (8, 8)
  else if t = 1 then some (16, 8)
  else if t = 2 then some (4, 4)
  else if t = 3 then some (8, 4)
  else if t = 4 then some (8, 8)
  else if t = 5 then some (16, 8)
  else if t = 8 then some (1, 1)
  else if t = 9 then some (2, 1)
  else if t = 16 then some (2, 2)
  else if t = 17 then some (4, 2)
  else if t = 32 then some (4, 4)
  else if t = 33 then some (8, 4)
  else if t = 72 then some (1, 1)
  else if t = 73 then some (2, 1)
  else if t = 80 then some (2, 2)
  else if t = 81 then some (4, 2)
  else if t = 96 then some (4, 4)
  else if t = 97 then some (8, 4)
  else none

/-- Split a buffer into consecutive element chunks of `k` bytes
(fuel-driven; the buffer's length is enough fuel). -/
def chunksOfAux (k : Nat) : Nat → Bytes → List Bytes
  | 0, _ => []
  | _, [] => []
  | f + 1, l => l.take k :: chunksOfAux k f (l.drop k)

def chunksOf (k : Nat) (l : Bytes) : List Bytes := chunksOfAux k l.length l

/-- Byte-swap one stored element to native order, component-wise (numpy
`newbyteorder('=')` on big-endian data). -/
def swapElem (comp : Nat) (e : Bytes) : Bytes :=
  ((chunksOf comp e).map List.reverse).flatten

/-- The decoded array: its shape, element size and the element byte chunks
in column-major (Fortran) order, normalised to native byte order, plus the
raw `data_b` buffer the source builds (`tail_data` + remainder read).
Modelled from the spec: `paul.base.wave.Wave` is a numpy array subclass;
an array is modelled by its shape and element representations. -/
structure WaveArr where
  shape : List Int
  itemsize : Nat
  elems : List Bytes
  raw : Bytes
  deriving DecidableEq, Repr

/-- `wave_read_data(f, wave_info, bin_info)`: map the type code through
`TYPE_TABLE` (`KeyError` if absent), assert
`wave_data_size == npnts * itemsize` (a plain Python `assert`, so
`AssertionError`), compute the shape (`[n for n in nDim if n > 0]` for v5,
else `(npnts,)`), prepend `tail_data` to the remaining data bytes, and
build the array (numpy raises on a negative dimension or a too-small
buffer). -/
def wave_read_data (s : Bytes) (pos : Nat) (wi : WaveInfoM) (bi : BinInfoM) :
    Except Err (WaveArr × Nat) :=
  match TYPE_TABLE_sizes wi.type with
  | none => .error .keyError
  | some (isz, comp) =>
    if bi.wave_data_size ≠ wi.npnts * (isz : Int) then .error .assertionError
    else
      let shape : List Int :=
        if bi.version = 5 then wi.nDim.filter (fun n => 0 < n) else [wi.npnts]
      let readAmt : Int := bi.wave_data_size - (bi.tail_size : Int)
      let extra := readF s pos readAmt
      let data_b := bi.tail_data ++ extra.1
      if shape.any (fun n => n < 0) then .error .valueError
      else
        let prodN : Nat := (shape.map Int.toNat).prod
        if data_b.length < prodN * isz then .error .typeError
        else
          let elemsRaw := chunksOf isz (data_b.take (prodN * isz))
          let elems := if bi.byte_order = .big then elemsRaw.map (swapElem comp) else elemsRaw
          .ok ({ shape, itemsize := isz, elems, raw := data_b }, extra.2)

/-- Consume a list of version-5 trailer reads, returning the final
position. -/
def readSeq (s : Bytes) : Nat → List Int → Nat
  | pos, [] => pos
  | pos, sz :: r => readSeq s (readF s pos sz).2 r

/-- `wave_read_info(f, wave_info, bin_info)`: the version-dependent
post-data trailer.  v1 none; v2 skips 16 padding bytes then reads the
note; v3 additionally asserts the padding is zero and reads the formula;
v5 reads formula, note, extended data units, per-dimension extended units
and labels, and (text waves only) string indices.  Notes and formulas are
`strip()`ped. -/
def wave_read_info (s : Bytes) (pos : Nat) (wi : WaveInfoM) (bi : BinInfoM) :
    Except Err (BinInfoM × Nat) :=
  if bi.version = 1 then .ok (bi, pos)
  else if bi.version = 2 then
    let pad := readF s pos 16
    let noteB := readF s pad.2 bi.noteSize
    .ok ({ bi with note := stripB noteB.1 }, noteB.2)
  else if bi.version = 3 then
    let pad := readF s pos 16
    if pad.1.length = 0 then .error .valueError
    else if pad.1.any (fun b => b ≠ 0) then .error .assertionError
    else
      let noteB := readF s pad.2 bi.noteSize
      let formulaB := readF s noteB.2 bi.formulaSize
      .ok ({ bi with note := stripB noteB.1, formula := stripB formulaB.1 }, formulaB.2)
  else
    let formulaB := readF s pos bi.formulaSize
    let noteB := readF s formulaB.2 bi.noteSize
    let dataEUnitsB := readF s noteB.2 bi.dataEUnitsSize
    let p4 := readSeq s dataEUnitsB.2 bi.dimEUnitsSize
    let p5 := readSeq s p4 bi.dimLabelsSize
    let p6 := if wi.type = 0 then (readF s p5 bi.sIndicesSize).2 else p5
    .ok ({ bi with note := stripB noteB.1, formula := stripB formulaB.1 }, p6)

/-- Native (little-endian) byte representation of an 8-byte float read
with the stream's byte order.  IEEE-754 decoding is injective on these
bytes (modulo NaN payloads and signed zero), so scale values are compared
by representation. -/
def doubleLE (bo : ByteOrder) (raw : Bytes) : Bytes :=
  match bo with
  | .little => raw
  | .big => raw.reverse

/-- The caller-visible result of `wave_read`: the decoded array, the
`info` dict (name, parsed note map, `tmp`), and the per-dimension affine
scale pairs `(sfA i, sfB i)` attached via `setScale`. -/
structure ReadWave where
  arr : WaveArr
  info : PyVal
  scales : List (Bytes × Bytes)
  deriving DecidableEq, Repr

/-- `wave_read(filename, note_parse=True)` on a stream whose `.name` is
`path`: header, text-wave guard, data, post-data trailer; then set
`info['name']` from the fixed-width `bname`, merge the parsed note map
into `info`, attach per-dimension scales (v5 only, where `sfA`/`sfB`
exist), and record `info['tmp']['last path']` when the path is nonempty.
Modelled from the spec: a fresh `Wave` starts with an empty `info` dict. -/
def wave_read (s : Bytes) (path : Bytes) : Except Err ReadWave :=
  match wave_read_header s 0 with
  | .error e => .error e
  | .ok (wi, bi, pos1) =>
    if wi.type = 0 then .error .notImplementedError
    else
      match wave_read_data s pos1 wi bi with
      | .error e => .error e
      | .ok (arr, pos2) =>
        match wave_read_info s pos2 wi bi with
        | .error e => .error e
        | .ok (bi2, _) =>
          let info0 : PyVal := .dictCons (bs "name") (.str wi.name) .dictNil
          match wave_note_parse_simple bi2.note with
          | .error e => .error e
          | .ok nmap =>
            let info1 := pyDictUpdate info0 nmap
            let scales : List (Bytes × Bytes) :=
              if wi.hasSf then
                (List.range arr.shape.length).map (fun i =>
                  (doubleLE bi.byte_order (wi.sfA.getD i []),
                   doubleLE bi.byte_order (wi.sfB.getD i [])))
              else []
            let info2 :=
              if path.length > 0 then
                pyDictSet info1 (bs "tmp") (.dictCons (bs "last path") (.str path) .dictNil)
              else info1
            .ok { arr, info := info2, scales }

/-- A minimal valid version-5 header stream: zero everywhere except the
version field (5) and the checksum field (-5), making the 384-byte span
sum to zero. -/
def v5zeroStream : Bytes := [5, 0] ++ [251, 255] ++ List.replicate 384 0

/-- Checks that a result is the checksum failure the spec demands:
`VersionError` naming expected 0 against a non-zero actual value. -/
def isVersionErrorNZ {α : Type} : Except Err α → Bool
  | .error (.versionError e a) => e == 0 && a != 0
  | _ => false

/-- A complete valid version-5 stream: `wfmSize = 328`, one float64 point
(`npnts = 1`, `nDim = [1,0,0,0]`, type 4), checksum field `-339`, eight
data bytes, empty note. -/
def c4stream : Bytes :=
  [5, 0] ++ [173, 254] ++ [72, 1, 0, 0] ++ List.replicate 68 0 ++
  [1, 0, 0, 0] ++ [4, 0] ++ List.replicate 50 0 ++ [1, 0, 0, 0] ++ List.replicate 248 0 ++
  [1, 2, 3, 4] ++ [5, 6, 7, 8]

/-- A version-1 header-sized stream whose checksum span sums to 1, not 0.
-/
def badv1stream : Bytes := [1, 0] ++ List.replicate 132 0

/-- The `wave_info` that `wave_read_header c4stream 0` produces. -/
def c4wi : WaveInfoM :=
  { type := 4, npnts := 1,
    bname := List.replicate 32 0, name := List.replicate 32 0,
    nDim := [1, 0, 0, 0],
    sfA := [List.replicate 8 0, List.replicate 8 0, List.replicate 8 0, List.replicate 8 0],
    sfB := [List.replicate 8 0, List.replicate 8 0, List.replicate 8 0, List.replicate 8 0],
    hasSf := true }

/-- The `bin_info` that `wave_read_header c4stream 0` produces. -/
def c4bi : BinInfoM :=
  { version := 5, wfmSize := 328, noteSize := 0, formulaSize := 0,
    dataEUnitsSize := 0, dimEUnitsSize := [0, 0, 0, 0], dimLabelsSize := [0, 0, 0, 0],
    sIndicesSize := 0, tail_size := 4, wave_data_size := 8,
    tail_data := [1, 2, 3, 4], byte_order := .little, note := [], formula := [] }

/-! ### PackedArchiveScanner (`pack_scan_tree`, igor.py lines 1011-1081)

The record header is `{u16 recordType, i16 version, i32 numDataBytes}`
(8 bytes); `PackedFileRecordHeader` never has its byte order set, so the
host (little-endian) order applies.  Seeking to a negative absolute
position raises in Python (`OSError`), modelled as `.error .seekError`.
The loop and the folder recursion are driven by fuel; `.error .noFuel`
marks runs the fuel cannot finish (the Python loop does not terminate on
adversarial self-referencing record sizes, so a fuel bound is the honest
model). -/

/-- A node of the scanned tree: the dict entries the source stores per
name — a folder (with its recursively scanned subtree) or a wave
reference (offset of the embedded wave, declared record size). -/
inductive PNode where
  | folder (name : Bytes) (sub : List (Bytes × PNode))
  | wave (name : Bytes) (offset : Nat) (size : Int)

abbrev PTree := List (Bytes × PNode)

/-- Python dict assignment on the name-keyed tree: replace in place, else
append (duplicate names at one level: last write wins). -/
def upsertTree : PTree → Bytes → PNode → PTree
  | [], k, v => [(k, v)]
  | (k0, v0) :: t, k, v =>
    if k0 = k then (k0, v) :: t else (k0, v0) :: upsertTree t k v

/-- `str(bytes).split("\0")[0]`: the folder name up to the first NUL. -/
def takeUntilZero : Bytes → Bytes
  | [] => []
  | b :: r => if b = 0 then [] else b :: takeUntilZero r

/-- The scanning loop of `pack_scan_tree`, carrying the tree built so far.
Branches on `recordType & 0x7fff`: `>= 11` skip; 9 `DataFolderStart`
(read the name, recurse, continue); 10 `DataFolderEnd` (skip and return);
3 `Wave` (decode only the header, store a wave node, seek past the
record); anything else skip. -/
def pack_scan_loop : Nat → Bytes → Nat → PTree → Except Err (PTree × Nat)
  | 0, _, _, _ => .error .noFuel
  | f + 1, s, pos, tree =>
    if s.length < pos + 8 then .ok (tree, pos)
    else
      let recType := readU .little s pos 2
      let numDataBytes := readI .little s (pos + 4) 4
      let recId := recType % 32768
      let pos0 := pos + 8
      if recId ≥ 11 then
        let newpos : Int := (pos0 : Int) + numDataBytes
        if newpos < 0 then .error .seekError
        else pack_scan_loop f s newpos.toNat tree
      else if recId = 9 then
        let nameRead := readF s pos0 numDataBytes
        let folderName := takeUntilZero nameRead.1
        match pack_scan_loop f s nameRead.2 [] with
        | .error e => .error e
        | .ok (sub, pos2) =>
          pack_scan_loop f s pos2 (upsertTree tree folderName (.folder folderName sub))
      else if recId = 10 then
        let newpos : Int := (pos0 : Int) + numDataBytes
        if newpos < 0 then .error .seekError
        else .ok (tree, newpos.toNat)
      else if recId = 3 then
        match wave_read_header s pos0 with
        | .error e => .error e
        | .ok (wi, _bi, wpos2) =>
          let tree2 := upsertTree tree wi.name (.wave wi.name pos0 numDataBytes)
          let newpos : Int := (wpos2 : Int) + (numDataBytes - ((wpos2 : Int) - (pos0 : Int)))
          if newpos < 0 then .error .seekError
          else pack_scan_loop f s newpos.toNat tree2
      else
        let newpos : Int := (pos0 : Int) + numDataBytes
        if newpos < 0 then .error .seekError
        else pack_scan_loop f s newpos.toNat tree

/-- `pack_scan_tree(filename)`: scan from `pos` with an empty tree. -/
def pack_scan_tree (fuel : Nat) (s : Bytes) (pos : Nat) : Except Err (PTree × Nat) :=
  pack_scan_loop fuel s pos []

/-- A packed stream whose first record is a Wave (type 3) holding garbage:
the embedded version field reads 7, an unsupported version.  A further
well-formed skippable record (type 0, size 0) follows. -/
def c7stream : Bytes := [3, 0, 0, 0, 2, 0, 0, 0] ++ [7, 0] ++ [0, 0, 0, 0, 0, 0, 0, 0]

/-- A packed stream whose first (top-level) record is `DataFolderEnd`
(type 10) with a benign size of 6. -/
def c8stream : Bytes := [10, 0, 0, 0, 6, 0, 0, 0]

/-- A packed stream whose first record is `DataFolderEnd` with declared
size -9, making the skip seek to absolute position -1. -/
def c8negstream : Bytes := [10, 0, 0, 0, 247, 255, 255, 255]

/-! ### WaveCodec writer (`wave_write`/`wave_init_header5`, igor.py lines
773-939)

The writer always emits version-5 little-endian files (`byte_order(0)` on
a little-endian host).  Struct packing is modelled from the spec as plain
fixed-layout little-endian packing (values reduced mod `2^width`; range
errors of Python's `struct` are not modelled — the round-trip claims
restrict sizes to the representable range). -/

/-- The numpy dtypes of `TYPE_TABLE` as an enumeration (claim C1 restricts
waves to dtypes present in the table).  `numpy.complex` at key 1 and
`numpy.complex128` at key 5 are the same dtype. -/
inductive IgorTy where
  | f4
  | c8
  | f8
  | c16
  | i1
  | ci1
  | i2
  | ci2
  | i4
  | ci4
  | u1
  | cu1
  | u2
  | cu2
  | u4
  | cu4
  deriving DecidableEq, Repr

/-- The type id the writer's reverse lookup assigns to each dtype: the
loop over `TYPE_TABLE.items()` keeps the LAST matching key in the table's
iteration order, so `complex128` gets 5 (key 1 holds the same dtype) and
`float64` gets 4 (the `None` entry at key 0, which numpy also equates
with float64, is iterated first). -/
def tyCode : IgorTy → Nat
  | .f4 => 2
  | .c8 => 3
  | .f8 => 4
  | .c16 => 5
  | .i1 => 8
  | .ci1 => 9
  | .i2 => 16
  | .ci2 => 17
  | .i4 => 32
  | .ci4 => 33
  | .u1 => 72
  | .cu1 => 73
  | .u2 => 80
  | .cu2 => 81
  | .u4 => 96
  | .cu4 => 97

def tyItemsize : IgorTy → Nat
  | .f4 => 4
  | .c8 => 8
  | .f8 => 8
  | .c16 => 16
  | .i1 => 1
  | .ci1 => 2
  | .i2 => 2
  | .ci2 => 4
  | .i4 => 4
  | .ci4 => 8
  | .u1 => 1
  | .cu1 => 2
  | .u2 => 2
  | .cu2 => 4
  | .u4 => 4
  | .cu4 => 8

def zeros8 : Bytes := List.replicate 8 0

/-- `sfA`/`sfB` as the writer fills them: the wave's per-axis doubles for
the existing dimensions, the packed integer 0 (eight zero bytes) beyond. -/
def padDoubles (l : List Bytes) (n : Nat) : List Bytes :=
  l.take n ++ List.replicate (4 - n) zeros8

/-- The serialized `BinHeader5` the writer emits: version 5, the checksum
field, `wfmSize`, `formulaSize = 0`, `noteSize`, and zeros for the
remaining 48 bytes of size fields. -/
def packBin5 (chk wfm noteSize : Int) : Bytes :=
  packLE 2 5 ++ packLE 2 chk ++ packLE 4 wfm ++ packLE 4 0 ++ packLE 4 noteSize ++
  List.replicate 48 0

/-- The first 320 bytes of the serialized `WaveHeader5` (everything before
the trailing `wData` field) as `wave_init_header5` plus the writer's
assignments produce it: zeros everywhere except `npnts`, `type`,
`whVersion = 1`, `bname`, `nDim`, `sfA`, `sfB`, and the two `'0'`
characters (byte 48) in `useBits`/`kindBits`. -/
def packWave5core (npnts : Int) (ty : Nat) (bname : Bytes) (nDim : List Int)
    (sfA sfB : List Bytes) : Bytes :=
  List.replicate 12 0 ++ packLE 4 npnts ++ packLE 2 (ty : Int) ++ List.replicate 8 0 ++
  packLE 2 1 ++ bname ++ List.replicate 8 0 ++
  (nDim.map (packLE 4)).flatten ++ sfA.flatten ++ sfB.flatten ++
  List.replicate 150 0 ++ [48, 48] ++ List.replicate 20 0

/-- The full serialized `WaveHeader5` (324 bytes): the core plus the
4-byte `wData` float, zero. -/
def packWave5 (npnts : Int) (ty : Nat) (bname : Bytes) (nDim : List Int)
    (sfA sfB : List Bytes) : Bytes :=
  packWave5core npnts ty bname nDim sfA sfB ++ List.replicate 4 0

/-- Input to `wave_write`: the wave's shape, its dtype (restricted to the
table dtypes as claim C1 does), its elements in Fortran order as
native-order byte chunks (`transpose(wave).tofile` writes exactly these),
the per-dimension `delta`/`offset` of its axes as 8-byte double
representations, and its `info` dict.  Modelled from the spec:
`paul.base.wave.Wave` is a numpy array subclass carrying `info` and
per-dimension axis scale objects. -/
structure WaveIn where
  shape : List Nat
  ty : IgorTy
  elemsF : List Bytes
  deltas : List Bytes
  offsets : List Bytes
  info : PyVal
  deriving DecidableEq, Repr

/--
`wave_write(wav, stream, autoname=True, autodir=True, note=None)` to a
stream (so the path is empty and autonaming does not apply): build blank
v5 headers, fill dimensions/scales/`npnts`, fix the name
(`wname[:31] + (32-len(wname))*'\0'`; `KeyError` when `info` has no name,
`TypeError` when it is not a string, a struct error when the padded name
misses the 32-byte field), find the type id by reverse table lookup,
serialize the note, set `wfmSize`, compute the checksum over both headers
minus the trailing 4-byte `wData`, and emit container header, wave header
without its last 4 bytes, the column-major payload, and the note.
-/
def wave_write (w : WaveIn) (note : Option Bytes := none) : Except Err Bytes :=
  if 4 < w.shape.length then .error .formatError
  else
    match pyDictLookup w.info (bs "name") with
    | none => .error .keyError
    | some (PyVal.str wname) =>
      let nDim : List Int :=
        w.shape.map Int.ofNat ++ List.replicate (4 - w.shape.length) 0
      let sfA := padDoubles w.deltas w.shape.length
      let sfB := padDoubles w.offsets w.shape.length
      let npnts : Int := if w.shape = [] then 0 else (w.shape.prod : Int)
      let bnameB : Bytes := wname.take 31 ++ List.replicate (32 - wname.length) 0
      if bnameB.length ≠ 32 then .error .structError
      else
        let note_text : Bytes := note.getD (wave_note_generate w.info)
        let size : Nat := if w.shape = [] then 1 else w.shape.prod
        let isz := tyItemsize w.ty
        let wfm : Int := (WaveHeader5_size : Int) + (size * isz : Nat) - 4
        let wh := packWave5 npnts (tyCode w.ty) bnameB nDim sfA sfB
        match checksum (packBin5 0 wfm note_text.length ++ wh) .little 0
            (BinHeader5_size + WaveHeader5_size - 4) with
        | .error e => .error e
        | .ok chk =>
          .ok (packBin5 (-chk) wfm note_text.length ++ wh.take (WaveHeader5_size - 4) ++
               w.elemsF.flatten ++ note_text)
    | some _ => .error .typeError


/-- A concrete one-point float64 wave named `w` (delta 1.0, offset 0). -/
def c1wave : WaveIn :=
  { shape := [1], ty := .f8,
    elemsF := [[1, 2, 3, 4, 5, 6, 7, 8]],
    deltas := [[0, 0, 0, 0, 0, 0, 240, 63]],
    offsets := [List.replicate 8 0],
    info := .dictCons (bs "name") (.str (bs "w")) .dictNil }

/-- The parsed note map of `c1wave`: its generated note is two newlines,
which parse to an empty map with an empty strays list. -/
def c1nm : PyVal := .dictCons (bs "strays") .listNil .dictNil

end Igor

namespace Igor

/-! ### Checksum lemmas -/

theorem readShorts_flatten_replicate (bo : ByteOrder) (b0 b1 : Nat) (rest : Bytes)
    (k : Nat) :
    ∀ m : Nat, readShorts bo (m + k) ((List.replicate m [b0, b1]).flatten ++ rest) =
      (readShorts bo k rest).map (fun l => List.replicate m (int16of bo b0 b1) ++ l) := by
  intro m
  induction m with
  | zero => simp [Option.map_id']
  | succ m ih =>
    have hs : m + 1 + k = (m + k) + 1 := by omega
    simp only [List.replicate_succ, List.flatten_cons, List.cons_append, List.append_assoc,
      hs, readShorts, List.nil_append]
    rw [ih]
    cases readShorts bo k rest <;> simp [List.replicate_succ]

/-- Every short read from genuine bytes lies in the 16-bit signed range. -/
theorem int16of_bounds (bo : ByteOrder) (b0 b1 : Nat) (h0 : b0 < 256) (h1 : b1 < 256) :
    -2 ^ 15 ≤ int16of bo b0 b1 ∧ int16of bo b0 b1 < 2 ^ 15 := by
  have hv : ordVal bo [b0, b1] < 65536 := by
    cases bo <;> simp [ordVal, leVal] <;> omega
  unfold int16of toSigned
  split <;> rename_i h
  · refine ⟨by omega, ?_⟩
    norm_num at h ⊢
    exact_mod_cast h
  · push_neg at h
    norm_num at h ⊢
    omega

theorem c2buf_shorts :
    readShorts .little (131078 / 2) c2buf =
      some (List.replicate 65538 32767 ++ [2]) := by
  have h := readShorts_flatten_replicate ByteOrder.little 255 127 [2, 0] 1 65538
  have h2 : (131078 : Nat) / 2 = 65538 + 1 := by norm_num
  rw [c2buf, h2, h]
  have : readShorts ByteOrder.little 1 [2, 0] = some [2] := by decide
  rw [this]
  rfl

theorem c2buf_sum : ((List.replicate 65538 (32767 : Int) ++ [2]).sum) = 2 ^ 31 := by
  rw [List.sum_append, List.sum_replicate, nsmul_eq_mul]
  norm_num

theorem c10buf_shorts :
    readShorts .little (131074 / 2) c10buf = some (List.replicate 65537 (-32768)) := by
  have h := readShorts_flatten_replicate ByteOrder.little 0 128 [] 0 65537
  rw [List.append_nil] at h
  have h16 : int16of ByteOrder.little 0 128 = -32768 := by decide
  rw [h16] at h
  have h2 : (131074 : Nat) / 2 = 65537 + 0 := by norm_num
  rw [c10buf, h2, h]
  rw [show readShorts ByteOrder.little 0 [] = some [] from rfl]
  simp only [Option.map_some', List.append_nil]

theorem c10buf_sum : (List.replicate 65537 (-32768 : Int)).sum = -(2 ^ 31) - 32768 := by
  rw [List.sum_replicate, nsmul_eq_mul]
  norm_num

theorem checksum_eq_core (buffer : Bytes) (bo : ByteOrder) (old : Int) (nb : Nat)
    (xs : List Int) (h : readShorts bo (nb / 2) buffer = some xs) :
    checksum buffer bo old nb = checksumCore old xs := by
  unfold checksum
  rw [h]

theorem checksum_spec_eq_core (buffer : Bytes) (bo : ByteOrder) (old : Int) (nb : Nat)
    (xs : List Int) (h : readShorts bo (nb / 2) buffer = some xs) :
    checksum_spec buffer bo old nb = checksumSpecCore old xs := by
  unfold checksum_spec
  rw [h]

/-- When the fold leaves the accumulator outside `[-2^31, 2^31)`, the
source's `assert` fails. -/
theorem checksumCore_assert (old : Int) (xs : List Int) (s : Int)
    (h : old + xs.sum = s)
    (hbad : ¬(-2 ^ 31 ≤ checksumFold s ∧ checksumFold s < 2 ^ 31)) :
    checksumCore old xs = .error .assertionError := by
  unfold checksumCore
  rw [h]
  exact if_neg hbad

theorem checksumSpecCore_eval (old : Int) (xs : List Int) (s : Int)
    (h : old + xs.sum = s) :
    checksumSpecCore old xs =
      .ok (let s32 : Int := (s + 2 ^ 31) % 2 ^ 32 - 2 ^ 31;
           let chk := s32 % 65536;
           if chk ≥ 2 ^ 15 then chk - 65536 else chk) := by
  unfold checksumSpecCore
  rw [h]

/--
Claim C2 (code_bug): the spec says the two-stage folding — exact mod-`2^32`
wraparound into the signed 32-bit range, then signed 16-bit truncation — is
reproduced bit-for-bit for all inputs, "including sums at and beyond the
32-bit boundaries".  It is not: on a buffer whose short sum is exactly
`2^31` (here 65538 shorts of `32767` plus one short of `2`, seed 0) the
source's fold (which only fires for sums strictly greater than `2^31`)
leaves the accumulator at `2^31`, its own `assert` fails, and `checksum`
raises `AssertionError` instead of returning the value `0` that the
specified folding (`checksum_spec`) produces.
-/
theorem C2_checksum_boundary_assert :
    checksum c2buf .little 0 131078 = .error .assertionError ∧
    checksum_spec c2buf .little 0 131078 = .ok 0 := by
  have hsum : (0 : Int) + (List.replicate 65538 (32767 : Int) ++ [2]).sum = 2 ^ 31 := by
    rw [c2buf_sum]; ring
  constructor
  · rw [checksum_eq_core _ _ _ _ _ c2buf_shorts]
    exact checksumCore_assert _ _ _ hsum (by norm_num [checksumFold])
  · rw [checksum_spec_eq_core _ _ _ _ _ c2buf_shorts,
      checksumSpecCore_eval _ _ _ hsum]
    norm_num

/-! ### Header lemmas -/

theorem structs_ok_versions (v : Int) (t : Nat × Nat × Nat)
    (h : wave_get_reading_structs v = .ok t) :
    v = 1 ∨ v = 2 ∨ v = 3 ∨ v = 5 := by
  unfold wave_get_reading_structs at h
  split_ifs at h with h1 h2 h3 h4 <;> simp_all

theorem unpackBin_version (v : Int) (bo : ByteOrder) (b : Bytes) :
    (unpackBin v bo b).version = v := by
  unfold unpackBin
  split_ifs <;> rfl

/-- Forward evaluation of `wave_read_header` on a stream that decodes
successfully. -/
theorem wave_read_header_eval (s : Bytes) (pos : Nat) (version : Int) (bo : ByteOrder)
    (binSize waveSize ckSize : Nat)
    (hd : detectVersion s pos = some (version, bo))
    (hs : wave_get_reading_structs version = .ok (binSize, waveSize, ckSize))
    (hc : checksum (sliceB s pos (binSize + waveSize)) bo 0 ckSize = .ok 0)
    (hlen : binSize + waveSize ≤ (sliceB s pos (binSize + waveSize)).length) :
    wave_read_header s pos =
      .ok (let b := sliceB s pos (binSize + waveSize)
           let bin0 := unpackBin version bo b
           let wave0 := unpackWave version bo b binSize
           let tailSize : Nat := if version = 5 then 4 else 16
           let wds : Int :=
             if version = 5 then bin0.wfmSize - ((waveSize : Int) - (tailSize : Int))
             else bin0.wfmSize - (waveSize : Int)
           ({ wave0 with name := wave0.bname },
            { bin0 with
              tail_size := tailSize, wave_data_size := wds,
              tail_data := takeLastB b tailSize },
            pos + binSize + waveSize)) := by
  unfold wave_read_header
  simp only [hd, hs, hc]
  rw [if_neg (by simp)]
  rw [if_neg (by omega)]

/-- Inversion of a successful `wave_read_header`. -/
theorem wave_read_header_ok (s : Bytes) (pos : Nat) (wi : WaveInfoM) (bi : BinInfoM)
    (pos1 : Nat) (h : wave_read_header s pos = .ok (wi, bi, pos1)) :
    ∃ version bo binSize waveSize ckSize,
      detectVersion s pos = some (version, bo) ∧
      wave_get_reading_structs version = .ok (binSize, waveSize, ckSize) ∧
      checksum (sliceB s pos (binSize + waveSize)) bo 0 ckSize = .ok 0 ∧
      binSize + waveSize ≤ (sliceB s pos (binSize + waveSize)).length ∧
      wi = (let b := sliceB s pos (binSize + waveSize)
            let wave0 := unpackWave version bo b binSize
            { wave0 with name := wave0.bname }) ∧
      bi = (let b := sliceB s pos (binSize + waveSize)
            let bin0 := unpackBin version bo b
            let tailSize : Nat := if version = 5 then 4 else 16
            let wds : Int :=
              if version = 5 then bin0.wfmSize - ((waveSize : Int) - (tailSize : Int))
              else bin0.wfmSize - (waveSize : Int)
            { bin0 with
              tail_size := tailSize, wave_data_size := wds,
              tail_data := takeLastB b tailSize }) ∧
      pos1 = pos + binSize + waveSize := by
  unfold wave_read_header at h
  cases hd : detectVersion s pos with
  | none =>
    simp only [hd] at h
    exact Except.noConfusion h
  | some vb =>
    obtain ⟨version, bo⟩ := vb
    simp only [hd] at h
    cases hs : wave_get_reading_structs version with
    | error e =>
      simp only [hs] at h
      exact Except.noConfusion h
    | ok triple =>
      obtain ⟨binSize, waveSize, ckSize⟩ := triple
      simp only [hs] at h
      cases hc : checksum (sliceB s pos (binSize + waveSize)) bo 0 ckSize with
      | error e =>
        simp only [hc] at h
        exact Except.noConfusion h
      | ok c =>
        simp only [hc] at h
        by_cases hc0 : c = 0
        · subst hc0
          rw [if_neg (by simp)] at h
          by_cases hlen : (sliceB s pos (binSize + waveSize)).length < binSize + waveSize
          · rw [if_pos hlen] at h; cases h
          · rw [if_neg hlen] at h
            refine ⟨version, bo, binSize, waveSize, ckSize, rfl, hs, hc, by omega, ?_⟩
            injection h with h1
            injection h1 with hwi h2
            injection h2 with hbi hpos
            exact ⟨hwi.symm, hbi.symm, hpos.symm⟩
        · rw [if_pos hc0] at h; cases h

/-! ### Checksum-span lemmas for claim C3 -/

theorem sum_bounds_of_mem (xs : List Int) (c : Int)
    (h : ∀ x ∈ xs, -c ≤ x ∧ x < c) :
    -((xs.length : Int) * c) ≤ xs.sum ∧ xs.sum ≤ (xs.length : Int) * c := by
  induction xs with
  | nil => simp
  | cons a t ih =>
    have ha := h a (by simp)
    have ht := ih (fun x hx => h x (by simp [hx]))
    simp only [List.sum_cons, List.length_cons]
    push_cast
    constructor <;> nlinarith [ht.1, ht.2, ha.1, ha.2]

/-- On a large-enough all-bytes buffer, `readShorts` succeeds and every
short is in the signed 16-bit range. -/
theorem readShorts_total (bo : ByteOrder) :
    ∀ (n : Nat) (l : Bytes), 2 * n ≤ l.length → (∀ b ∈ l, b < 256) →
      ∃ xs, readShorts bo n l = some xs ∧ xs.length = n ∧
        ∀ x ∈ xs, -2 ^ 15 ≤ x ∧ x < 2 ^ 15 := by
  intro n
  induction n with
  | zero => intro l _ _; exact ⟨[], rfl, rfl, by simp⟩
  | succ m ih =>
    intro l hlen hb
    match l with
    | [] => simp at hlen
    | [b0] => simp at hlen; omega
    | b0 :: b1 :: r =>
      have hlen2 : 2 * m ≤ r.length := by simp at hlen; omega
      obtain ⟨xs, hxs, hlength, hbounds⟩ := ih r hlen2 (fun b hb2 => hb b (by simp [hb2]))
      refine ⟨int16of bo b0 b1 :: xs, ?_, by simp [hlength], ?_⟩
      · simp [readShorts, hxs]
      · intro x hx
        rcases List.mem_cons.mp hx with h1 | h2
        · subst h1
          exact int16of_bounds bo b0 b1 (hb b0 (by simp)) (hb b1 (by simp))
        · exact hbounds x h2

theorem ordVal2_lt (bo : ByteOrder) (a0 a1 : Nat) (h0 : a0 < 256) (h1 : a1 < 256) :
    ordVal bo [a0, a1] < 65536 := by
  cases bo <;> simp [ordVal, leVal] <;> omega

/-- Two byte pairs with different unsigned values give signed shorts whose
difference is not a multiple of `2^16`. -/
theorem int16of_sub_not_dvd (bo : ByteOrder) (a0 a1 c0 c1 : Nat)
    (ha0 : a0 < 256) (ha1 : a1 < 256) (hc0 : c0 < 256) (hc1 : c1 < 256)
    (hne : ordVal bo [a0, a1] ≠ ordVal bo [c0, c1]) :
    ¬ ((65536 : Int) ∣ (int16of bo a0 a1 - int16of bo c0 c1)) := by
  have hA := ordVal2_lt bo a0 a1 ha0 ha1
  have hC := ordVal2_lt bo c0 c1 hc0 hc1
  unfold int16of toSigned
  norm_num
  split_ifs <;> intro hdvd <;> omega

/-- Flipping one byte within the span changes the short sum by a value
that is not a multiple of `2^16`. -/
theorem readShorts_flip (bo : ByteOrder) :
    ∀ (n : Nat) (i : Nat) (l : Bytes) (newb : Nat),
      i < 2 * n → (∀ b ∈ l, b < 256) → newb < 256 → l.getD i 0 ≠ newb →
      ∀ xs xs2, readShorts bo n l = some xs →
        readShorts bo n (l.set i newb) = some xs2 →
        ¬ ((65536 : Int) ∣ (xs2.sum - xs.sum)) := by
  intro n
  induction n with
  | zero => intro i l newb hi; omega
  | succ m ih =>
    intro i l newb hi hb hnew hne xs xs2 hxs hxs2
    match l with
    | [] => simp [readShorts] at hxs
    | [b0] => simp [readShorts] at hxs
    | b0 :: b1 :: r =>
      have hb0 : b0 < 256 := hb b0 (by simp)
      have hb1 : b1 < 256 := hb b1 (by simp)
      match i with
      | 0 =>
        simp only [List.set_cons_zero] at hxs2
        simp only [readShorts] at hxs hxs2
        cases hys : readShorts bo m r with
        | none => rw [hys] at hxs; cases hxs
        | some ys =>
          rw [hys] at hxs hxs2
          simp only [Option.map_some'] at hxs hxs2
          injection hxs with hxs
          injection hxs2 with hxs2
          subst hxs hxs2
          simp only [List.sum_cons]
          have hord : ordVal bo [newb, b1] ≠ ordVal bo [b0, b1] := by
            have : b0 ≠ newb := by simpa using hne
            cases bo <;> simp [ordVal, leVal] <;> omega
          have := int16of_sub_not_dvd bo newb b1 b0 b1 hnew hb1 hb0 hb1 hord
          intro hdvd
          apply this
          have heq : int16of bo newb b1 + ys.sum - (int16of bo b0 b1 + ys.sum) =
              int16of bo newb b1 - int16of bo b0 b1 := by ring
          rwa [heq] at hdvd
      | 1 =>
        simp only [List.set_cons_succ, List.set_cons_zero] at hxs2
        simp only [readShorts] at hxs hxs2
        cases hys : readShorts bo m r with
        | none => rw [hys] at hxs; cases hxs
        | some ys =>
          rw [hys] at hxs hxs2
          simp only [Option.map_some'] at hxs hxs2
          injection hxs with hxs
          injection hxs2 with hxs2
          subst hxs hxs2
          simp only [List.sum_cons]
          have hord : ordVal bo [b0, newb] ≠ ordVal bo [b0, b1] := by
            have : b1 ≠ newb := by simpa using hne
            cases bo <;> simp [ordVal, leVal] <;> omega
          have := int16of_sub_not_dvd bo b0 newb b0 b1 hb0 hnew hb0 hb1 hord
          intro hdvd
          apply this
          have heq : int16of bo b0 newb + ys.sum - (int16of bo b0 b1 + ys.sum) =
              int16of bo b0 newb - int16of bo b0 b1 := by ring
          rwa [heq] at hdvd
      | j + 2 =>
        simp only [List.set_cons_succ] at hxs2
        simp only [readShorts] at hxs hxs2
        cases hys : readShorts bo m r with
        | none => rw [hys] at hxs; cases hxs
        | some ys =>
          cases hys2 : readShorts bo m (r.set j newb) with
          | none => rw [hys2] at hxs2; cases hxs2
          | some ys2 =>
            rw [hys] at hxs
            rw [hys2] at hxs2
            simp only [Option.map_some'] at hxs hxs2
            injection hxs with hxs
            injection hxs2 with hxs2
            subst hxs hxs2
            simp only [List.sum_cons]
            have hrec := ih j r newb (by omega)
              (fun b hb2 => hb b (by simp [hb2])) hnew (by simpa using hne)
              ys ys2 hys hys2
            intro hdvd
            apply hrec
            have heq : int16of bo b0 b1 + ys2.sum - (int16of bo b0 b1 + ys.sum) =
                ys2.sum - ys.sum := by ring
            rwa [heq] at hdvd

/-- Taking strictly before a set position ignores the set. -/
theorem take_set_of_le (a : Nat) (i m : Nat) (l : Bytes) (h : m ≤ i) :
    (l.set i a).take m = l.take m := by
  apply List.ext_getElem?
  intro j
  rw [List.getElem?_take, List.getElem?_take]
  split
  · exact List.getElem?_set_ne (by omega)
  · rfl

/-- Setting inside a taken prefix commutes with the take. -/
theorem take_set_comm (a : Nat) (i m : Nat) (l : Bytes) (h : i < m) :
    (l.set i a).take m = (l.take m).set i a := by
  apply List.ext_getElem?
  intro j
  by_cases hij : i = j
  · subst hij
    by_cases hlen : i < l.length
    · rw [List.getElem?_take_of_lt h, List.getElem?_set_self (by simpa using hlen),
        List.getElem?_set_self (by simp [List.length_take]; omega)]
    · rw [List.set_eq_of_length_le (by omega), List.set_eq_of_length_le (by simp; omega)]
  · rw [List.getElem?_set_ne hij, List.getElem?_take, List.getElem?_take,
      List.getElem?_set_ne hij]

/-- The fold is the identity on sums at most `2^31`. -/
theorem checksumFold_id (s : Int) (h : s ≤ 2 ^ 31) : checksumFold s = s := by
  unfold checksumFold
  rw [if_neg (by omega)]

/-- `checksumCore` on a sum already inside the 32-bit range. -/
theorem checksumCore_bounded (old : Int) (xs : List Int)
    (h1 : -2 ^ 31 ≤ old + xs.sum) (h2 : old + xs.sum < 2 ^ 31) :
    checksumCore old xs =
      .ok (if (old + xs.sum) % 65536 ≥ 2 ^ 15 then (old + xs.sum) % 65536 - 65536
           else (old + xs.sum) % 65536) := by
  simp only [checksumCore]
  rw [checksumFold_id _ (by omega)]
  rw [if_pos ⟨h1, h2⟩]

set_option maxRecDepth 8000 in
/--
Claim C3 counterexample: the claim says that for every valid v5 file,
flipping ANY single header byte makes decode fail with `VersionError`.
Flipping byte 1 (the high byte of the version field) of a valid v5 stream
turns the version into 261, and decode fails with `FormatError` (from
`wave_get_reading_structs`) before any checksum is computed — a different
exception than the claim requires.
-/
theorem C3_counterexample :
    (wave_read_header v5zeroStream 0).isOk = true ∧
    wave_read_header (v5zeroStream.set 1 1) 0 = .error .formatError :=
  ⟨by decide, by decide⟩

/--
Claim C3 (corrected): (1) whenever the checksum over the version-selected
span computes to a non-zero value `c`, `wave_read_header` raises
`VersionError` naming the expected value 0 against `c`; (2) for a valid v5
stream, flipping any single byte of the checksummed span OTHER than the
two version-field bytes (positions 2 ≤ i < 384) makes decode fail with a
`VersionError` of that shape — flips inside the version field may instead
raise `FormatError` (see the counterexample), and flips beyond the span do
not fail decoding at all.
-/
theorem C3_amended_checksum_mismatch :
    (∀ (s : Bytes) (pos : Nat) (version : Int) (bo : ByteOrder)
        (binSize waveSize ckSize : Nat) (c : Int),
        detectVersion s pos = some (version, bo) →
        wave_get_reading_structs version = .ok (binSize, waveSize, ckSize) →
        checksum (sliceB s pos (binSize + waveSize)) bo 0 ckSize = .ok c →
        c ≠ 0 →
        wave_read_header s pos = .error (.versionError 0 c)) ∧
    (∀ (s : Bytes) (i newb : Nat),
        (∀ b ∈ s, b < 256) →
        sliceB s 0 2 = [5, 0] →
        388 ≤ s.length →
        checksum (sliceB s 0 388) .little 0 384 = .ok 0 →
        2 ≤ i → i < 384 → newb < 256 → s.getD i 0 ≠ newb →
        isVersionErrorNZ (wave_read_header (s.set i newb) 0) = true) := by
  constructor
  · intro s pos version bo binSize waveSize ckSize c hd hs hck hc0
    unfold wave_read_header
    simp only [hd, hs, hck]
    rw [if_pos hc0]
  · intro s i newb hbytes h01 hlen hck h2i hi384 hnewb hflip
    have hbmem : ∀ b ∈ sliceB s 0 388, b < 256 := by
      intro b hm
      refine hbytes b ?_
      simp only [sliceB, List.drop_zero] at hm
      exact List.take_subset _ _ hm
    have hblen : (sliceB s 0 388).length = 388 := by
      simp only [sliceB, List.drop_zero, List.length_take]
      omega
    have hb' : sliceB (s.set i newb) 0 388 = (sliceB s 0 388).set i newb := by
      simp only [sliceB, List.drop_zero]
      exact take_set_comm newb i 388 s (by omega)
    have hbmem2 : ∀ b ∈ (sliceB s 0 388).set i newb, b < 256 := by
      intro b hm
      rcases List.mem_or_eq_of_mem_set hm with h | h
      · exact hbmem b h
      · omega
    obtain ⟨xs, hxs, hxslen, hxsb⟩ :=
      readShorts_total .little 192 (sliceB s 0 388) (by omega) hbmem
    obtain ⟨xs2, hxs2, hxs2len, hxs2b⟩ :=
      readShorts_total .little 192 ((sliceB s 0 388).set i newb)
        (by simp only [List.length_set]; omega) hbmem2
    have hsumb := sum_bounds_of_mem xs _ hxsb
    have hsumb2 := sum_bounds_of_mem xs2 _ hxs2b
    rw [hxslen] at hsumb
    rw [hxs2len] at hsumb2
    have hck2 : checksumCore 0 xs = .ok 0 := by
      have he := checksum_eq_core (sliceB s 0 388) .little 0 384 xs
        (by rw [show (384 : Nat) / 2 = 192 from rfl]; exact hxs)
      rw [he] at hck
      exact hck
    have hmod0 : xs.sum % 65536 = 0 := by
      rw [checksumCore_bounded 0 xs (by norm_num at hsumb ⊢; omega)
        (by norm_num at hsumb ⊢; omega)] at hck2
      injection hck2 with hv
      norm_num at hv
      split_ifs at hv <;> omega
    have hgetD : (sliceB s 0 388).getD i 0 = s.getD i 0 := by
      simp only [sliceB, List.drop_zero]
      rw [List.getD_eq_getElem?_getD, List.getD_eq_getElem?_getD,
        List.getElem?_take_of_lt (by omega)]
    have hnd := readShorts_flip .little 192 i (sliceB s 0 388) newb (by omega)
      hbmem hnewb (by rw [hgetD]; exact hflip) xs xs2 hxs hxs2
    have hmodne : xs2.sum % 65536 ≠ 0 := by
      intro hz
      exact hnd (by omega)
    have hck3 : checksum ((sliceB s 0 388).set i newb) .little 0 384 =
        .ok (if (0 + xs2.sum) % 65536 ≥ 2 ^ 15 then (0 + xs2.sum) % 65536 - 65536
             else (0 + xs2.sum) % 65536) := by
      rw [checksum_eq_core _ .little 0 384 xs2
        (by rw [show (384 : Nat) / 2 = 192 from rfl]; exact hxs2)]
      exact checksumCore_bounded 0 xs2 (by norm_num at hsumb2 ⊢; omega)
        (by norm_num at hsumb2 ⊢; omega)
    have hcne : (if (0 + xs2.sum) % 65536 ≥ 2 ^ 15 then (0 + xs2.sum) % 65536 - 65536
        else (0 + xs2.sum) % 65536) ≠ 0 := by
      norm_num
      split_ifs <;> omega
    have hdet : detectVersion (s.set i newb) 0 = some (5, .little) := by
      have hsl : sliceB (s.set i newb) 0 2 = [5, 0] := by
        have h2 : sliceB (s.set i newb) 0 2 = sliceB s 0 2 := by
          simp only [sliceB, List.drop_zero]
          exact take_set_of_le newb i 2 s (by omega)
        rw [h2, h01]
      unfold detectVersion
      rw [hsl]
      norm_num [leVal, toSigned, ordVal]
    have hstructs : wave_get_reading_structs 5 = .ok (64, 324, 384) := by decide
    unfold wave_read_header
    simp only [hdet, hstructs]
    rw [show (64 : Nat) + 324 = 388 from rfl]
    rw [hb']
    simp only [hck3]
    rw [if_pos hcne]
    simp only [isVersionErrorNZ]
    simp only [beq_self_eq_true, Bool.true_and, bne_iff_ne, ne_eq, decide_eq_true_eq]
    split_ifs <;> omega

set_option maxRecDepth 8000 in
/-- Witness for C3: a version-1 stream with checksum 1 fails with
`VersionError 0 1`, and flipping byte 10 of the valid `v5zeroStream`
produces a `VersionError` with non-zero actual value. -/
theorem C3_amended_witness :
    wave_read_header badv1stream 0 = .error (.versionError 0 1) ∧
    isVersionErrorNZ (wave_read_header (v5zeroStream.set 10 7) 0) = true :=
  ⟨C3_amended_checksum_mismatch.1 badv1stream 0 1 .little 8 126 134 1
     (by decide) (by decide) (by decide) (by decide),
   C3_amended_checksum_mismatch.2 v5zeroStream 10 7 (by decide) (by decide)
     (by decide) (by decide) (by decide) (by decide) (by decide) (by decide)⟩

/-- `wave_read_data` on a mapped type with a size mismatch raises the
source's plain `assert`, an `AssertionError`. -/
theorem wave_read_data_mismatch (s : Bytes) (pos : Nat) (wi : WaveInfoM) (bi : BinInfoM)
    (isz comp : Nat) (ht : TYPE_TABLE_sizes wi.type = some (isz, comp))
    (hne : bi.wave_data_size ≠ wi.npnts * (isz : Int)) :
    wave_read_data s pos wi bi = .error .assertionError := by
  unfold wave_read_data
  simp only [ht]
  rw [if_pos hne]

/-- Inversion of a successful `wave_read_data`. -/
theorem wave_read_data_ok (s : Bytes) (pos : Nat) (wi : WaveInfoM) (bi : BinInfoM)
    (arr : WaveArr) (pos2 : Nat) (h : wave_read_data s pos wi bi = .ok (arr, pos2)) :
    ∃ isz comp, TYPE_TABLE_sizes wi.type = some (isz, comp) ∧
      bi.wave_data_size = wi.npnts * (isz : Int) ∧
      arr.shape = (if bi.version = 5 then wi.nDim.filter (fun n => 0 < n) else [wi.npnts]) ∧
      arr.itemsize = isz ∧
      arr.raw = bi.tail_data ++ (readF s pos (bi.wave_data_size - (bi.tail_size : Int))).1 ∧
      pos2 = (readF s pos (bi.wave_data_size - (bi.tail_size : Int))).2 := by
  unfold wave_read_data at h
  cases ht : TYPE_TABLE_sizes wi.type with
  | none =>
    simp only [ht] at h
    exact Except.noConfusion h
  | some p =>
    obtain ⟨isz, comp⟩ := p
    simp only [ht] at h
    by_cases hne : bi.wave_data_size ≠ wi.npnts * (isz : Int)
    · rw [if_pos hne] at h; cases h
    · rw [if_neg hne] at h
      push_neg at hne
      by_cases hneg : (if bi.version = 5 then wi.nDim.filter (fun n => 0 < n)
          else [wi.npnts]).any (fun n => n < 0)
      · rw [if_pos hneg] at h; cases h
      · rw [if_neg hneg] at h
        by_cases hsmall : (bi.tail_data ++
            (readF s pos (bi.wave_data_size - (bi.tail_size : Int))).1).length <
            (((if bi.version = 5 then wi.nDim.filter (fun n => 0 < n)
               else [wi.npnts]).map Int.toNat).prod) * isz
        · rw [if_pos hsmall] at h; cases h
        · rw [if_neg hsmall] at h
          injection h with h1
          injection h1 with harr hpos
          exact ⟨isz, comp, rfl, hne, by rw [← harr], by rw [← harr], by rw [← harr],
            hpos.symm⟩

set_option maxRecDepth 8000 in
/-- `c4stream` decodes to the concrete `(c4wi, c4bi)` pair. -/
theorem c4stream_header : wave_read_header c4stream 0 = .ok (c4wi, c4bi, 388) := by decide

/--
Claim C4 (corrected): for every successfully decoded header, `tail_size`
is 16 for versions 1-3 and 4 for version 5, and the last `tail_size` bytes
of the header buffer are stored as `tail_data` and re-prepended to the
stream remainder when the data block is read; but `wave_data_size` equals
`wfmSize` minus the wave-header structure size only for versions 1-3 — for
version 5 the source subtracts the structure size MINUS the 4-byte tail
(`WaveHeader5_size - 4 = 320`), not the full structure size the claim
states.
-/
theorem C4_amended_tail_fields (s : Bytes) (pos : Nat) (wi : WaveInfoM) (bi : BinInfoM)
    (pos1 : Nat) (h : wave_read_header s pos = .ok (wi, bi, pos1)) :
    bi.tail_size = (if bi.version = 5 then 4 else 16) ∧
    bi.wave_data_size =
      (if bi.version = 5 then bi.wfmSize - ((WaveHeader5_size : Int) - (bi.tail_size : Int))
       else bi.wfmSize - (WaveHeader2_size : Int)) ∧
    (∃ binSize waveSize ckSize,
      wave_get_reading_structs bi.version = .ok (binSize, waveSize, ckSize) ∧
      bi.tail_data = takeLastB (sliceB s pos (binSize + waveSize)) bi.tail_size) ∧
    (∀ arr pos2, wave_read_data s pos1 wi bi = .ok (arr, pos2) →
      arr.raw = bi.tail_data ++ (readF s pos1 (bi.wave_data_size - (bi.tail_size : Int))).1) := by
  obtain ⟨version, bo, binSize, waveSize, ckSize, hd, hs, hc, hlen, hwi, hbi, hpos⟩ :=
    wave_read_header_ok s pos wi bi pos1 h
  have hvers := structs_ok_versions version _ hs
  have hsizes : (version = 5 → binSize = BinHeader5_size ∧ waveSize = WaveHeader5_size) ∧
      (version ≠ 5 → waveSize = WaveHeader2_size) := by
    unfold wave_get_reading_structs at hs
    rcases hvers with h1 | h2 | h3 | h5
    · rw [h1] at hs
      norm_num at hs
      exact ⟨by intro hcon; omega, fun _ => hs.2.1.symm⟩
    · rw [h2] at hs
      norm_num at hs
      exact ⟨by intro hcon; omega, fun _ => hs.2.1.symm⟩
    · rw [h3] at hs
      norm_num at hs
      exact ⟨by intro hcon; omega, fun _ => hs.2.1.symm⟩
    · rw [h5] at hs
      norm_num at hs
      exact ⟨fun _ => ⟨hs.1.symm, hs.2.1.symm⟩, by intro hcon; omega⟩
  subst hbi hpos
  refine ⟨?_, ?_, ?_, ?_⟩
  · by_cases hv5 : version = 5 <;> simp [hv5, unpackBin_version]
  · by_cases hv5 : version = 5
    · have hw := (hsizes.1 hv5).2
      simp [hv5, unpackBin_version, hw]
    · have hw := hsizes.2 hv5
      simp [hv5, unpackBin_version, hw]
  · refine ⟨binSize, waveSize, ckSize, by simp [unpackBin_version, hs], ?_⟩
    by_cases hv5 : version = 5 <;> simp [hv5, unpackBin_version]
  · intro arr pos2 hrd
    obtain ⟨isz, comp, _, _, _, _, hraw, _⟩ :=
      wave_read_data_ok s (pos + binSize + waveSize) wi _ arr pos2 hrd
    exact hraw

set_option maxRecDepth 8000 in
/-- Witness for C4 at the concrete stream `c4stream`: tail fields, tail
data and the data-buffer prepend, all checked on a full decode. -/
theorem C4_amended_witness :
    c4bi.tail_size = (if c4bi.version = 5 then 4 else 16) ∧
    c4bi.wave_data_size =
      (if c4bi.version = 5 then c4bi.wfmSize - ((WaveHeader5_size : Int) - (c4bi.tail_size : Int))
       else c4bi.wfmSize - (WaveHeader2_size : Int)) ∧
    (∃ binSize waveSize ckSize,
      wave_get_reading_structs c4bi.version = .ok (binSize, waveSize, ckSize) ∧
      c4bi.tail_data = takeLastB (sliceB c4stream 0 (binSize + waveSize)) c4bi.tail_size) ∧
    (∀ arr pos2, wave_read_data c4stream 388 c4wi c4bi = .ok (arr, pos2) →
      arr.raw = c4bi.tail_data ++
        (readF c4stream 388 (c4bi.wave_data_size - (c4bi.tail_size : Int))).1) :=
  C4_amended_tail_fields c4stream 0 c4wi c4bi 388 c4stream_header

/--
Claim C9 counterexample: the claim says a mismatch between
`wave_data_size` and `npnts * itemsize` fails with `FormatError`.  The
source uses a plain Python `assert`, so the failure is `AssertionError`,
a different exception: here `wave_data_size = 8` against
`npnts * itemsize = 2 * 8 = 16` for a float64 wave.
-/
theorem C9_counterexample :
    wave_read_data [] 0 { type := 4, npnts := 2 }
      { version := 5, wave_data_size := 8, tail_size := 4, tail_data := [0, 0, 0, 0] } =
      .error .assertionError ∧
    Err.assertionError ≠ Err.formatError :=
  ⟨by decide, by decide⟩

/--
Claim C9 (corrected): for every header pair whose type code is mapped by
the type table, a mismatch between `wave_data_size` and
`npnts * itemsize` makes `wave_read_data` fail with `AssertionError` (not
`FormatError` as claimed), and on success the produced array's shape is
`[n for n in nDim if n > 0]` for version 5 and `(npnts,)` otherwise.
-/
theorem C9_amended_size_check_and_shape (s : Bytes) (pos : Nat) (wi : WaveInfoM)
    (bi : BinInfoM) (isz comp : Nat) (ht : TYPE_TABLE_sizes wi.type = some (isz, comp)) :
    (bi.wave_data_size ≠ wi.npnts * (isz : Int) →
      wave_read_data s pos wi bi = .error .assertionError) ∧
    (∀ arr pos2, wave_read_data s pos wi bi = .ok (arr, pos2) →
      arr.shape = (if bi.version = 5 then wi.nDim.filter (fun n => 0 < n) else [wi.npnts])) := by
  constructor
  · intro hne
    exact wave_read_data_mismatch s pos wi bi isz comp ht hne
  · intro arr pos2 hrd
    obtain ⟨isz2, comp2, _, _, hshape, _, _, _⟩ := wave_read_data_ok s pos wi bi arr pos2 hrd
    exact hshape

/-- Witness for C9: the mismatch branch on a concrete float64 header pair,
and the v5 shape rule on the concrete `c4stream` decode. -/
theorem C9_amended_witness :
    wave_read_data [] 7 { type := 4, npnts := 3 }
      { version := 5, wave_data_size := 16, tail_size := 4 } = .error .assertionError ∧
    (∀ arr pos2, wave_read_data c4stream 388 c4wi c4bi = .ok (arr, pos2) →
      arr.shape = (if c4bi.version = 5 then c4wi.nDim.filter (fun n => 0 < n)
        else [c4wi.npnts])) :=
  ⟨(C9_amended_size_check_and_shape [] 7 { type := 4, npnts := 3 }
      { version := 5, wave_data_size := 16, tail_size := 4 } 8 8 (by decide)).1 (by decide),
   (C9_amended_size_check_and_shape c4stream 388 c4wi c4bi 8 8 (by decide)).2⟩

set_option maxRecDepth 8000 in
/--
Claim C4 counterexample: the claim says `wave_data_size` equals the
declared total size minus the wave-header structure size for the version.
For version 5 the source subtracts `WaveHeader5.size - tail_size`
(`324 - 4 = 320`), not the structure size 324: on a decodable v5 header
with `wfmSize = 0` the code derives `wave_data_size = -320`, while the
claimed formula gives `-324`.
-/
theorem C4_counterexample :
    (wave_read_header v5zeroStream 0).map (fun r => r.2.1.wave_data_size) = .ok (-320) ∧
    (wave_read_header v5zeroStream 0).map
      (fun r => r.2.1.wfmSize - (WaveHeader5_size : Int)) = .ok (-324) :=
  ⟨by decide, by decide⟩

/-- The sub-map pass of the writer emits exactly one `note_gen_block_entry`
per map entry. -/
theorem genAux_blocks_cons (f : Nat) (pfx k : Bytes) (v t : PyVal) :
    genAux (f + 1) (.blocks pfx (.dictCons k v t)) =
      note_gen_block_entry f pfx k v ++ genAux f (.blocks pfx t) := rfl

/-- The root pass of the writer emits exactly one `note_gen_root_entry`
per map entry. -/
theorem genAux_roots_cons (f : Nat) (k : Bytes) (v t : PyVal) :
    genAux (f + 1) (.roots (.dictCons k v t)) =
      note_gen_root_entry k v ++ genAux f (.roots t) := rfl

/--
Claim C5 counterexample: the claim says a note line is split on the FIRST
`=`, the value being everything after it — so `a=b=c` should bind `a` to
the parse of `b=c` (the one-token list `["b=c"]`).  The source splits on
every `=` and keeps only `nv[1]`: `a=b=c` actually binds `a` to `["b"]`,
differing from the claim-described parse (`wave_note_parse_c5spec`).
-/
theorem C5_counterexample :
    wave_note_parse_simple (bs "a=b=c") =
      .ok (.dictCons (bs "strays") .listNil
        (.dictCons (bs "a") (.listCons (.str (bs "b")) .listNil) .dictNil)) ∧
    wave_note_parse_c5spec (bs "a=b=c") =
      .ok (.dictCons (bs "strays") .listNil
        (.dictCons (bs "a") (.listCons (.str (bs "b=c")) .listNil) .dictNil)) ∧
    wave_note_parse_simple (bs "a=b=c") ≠ wave_note_parse_c5spec (bs "a=b=c") := by
  refine ⟨by decide, by decide, by decide⟩

/--
Claim C5 (corrected): for a single note line containing `=` (stripped, not
a block tag, key not the reserved root key `strays`), the parser splits on
every `=` and keeps `nv[0]`/`nv[1]`: the key is everything before the
first `=` and the value is the segment between the first and second `=`
(anything after a second `=` is dropped), the value being attempted as a
number, else split into a whitespace token list (`noteEvalVal`; a lone
non-numeric token yields a one-element list, not a raw string).
-/
theorem C5_amended_first_segment_value (l k v : Bytes) (rest : List Bytes)
    (hlines : splitOnByte 10 (l.map fun b => if b = 13 then 10 else b) = [l])
    (hstrip : stripB l = l)
    (hne : l ≠ [])
    (hnotblock : (l.head? == some 91 && l.getLast? == some 93) = false)
    (hkv : splitOnByte 61 l = k :: v :: rest)
    (hkey : stripB k ≠ bs "strays") :
    wave_note_parse_simple l =
      .ok (.dictCons (bs "strays") .listNil
        (.dictCons (stripB k) (noteEvalVal (stripB v)) .dictNil)) := by
  have hlen : ¬(l.length = 0) := by
    simpa [List.length_eq_zero] using hne
  have step : noteLineStep false ⟨.dictCons (bs "strays") .listNil .dictNil, none⟩ l =
      .ok ⟨.dictCons (bs "strays") .listNil
        (.dictCons (stripB k) (noteEvalVal (stripB v)) .dictNil), none⟩ := by
    unfold noteLineStep
    simp only [hstrip]
    rw [if_neg hlen]
    simp only [Option.isSome_none, Bool.false_and, hnotblock, Bool.false_eq_true, if_false,
      hkv]
    simp only [pyDictSet, if_neg (Ne.symm hkey)]
  unfold wave_note_parse_simple
  rw [hlines]
  simp only [noteFoldLines, step, noteCommit]

/-- Witness for C5: the line `T=1=2` parses to `T ↦ 1` (the value is the
segment `1` between the two `=`s). -/
theorem C5_amended_witness :
    wave_note_parse_simple (bs "T=1=2") =
      .ok (.dictCons (bs "strays") .listNil
        (.dictCons (bs "T") (.num 1) .dictNil)) := by
  have h := C5_amended_first_segment_value (bs "T=1=2") (bs "T") (bs "1") [bs "2"]
    (by decide) (by decide) (by decide) (by decide) (by decide) (by decide)
  simpa using h

/--
Claim C6 counterexample: the claim says the reserved keys
`debug, strays, axes, name, tmp` are skipped in ALL emission passes of the
note writer — in particular that no `[blockname]` section is ever emitted
for them.  The sub-map pass only skips `debug, strays, axes, name`: a
`tmp` entry holding a dict is emitted as a `[tmp]` section.
-/
theorem C6_counterexample :
    note_gen_block_entry 9 [] (bs "tmp") (.dictCons (bs "a") (.num 1) .dictNil) =
      bs "[tmp]\na = 1\n\n\n" ∧
    note_gen_block_entry 9 [] (bs "tmp") (.dictCons (bs "a") (.num 1) .dictNil) ≠ [] := by
  exact ⟨by decide, by decide⟩

/--
Claim C6 (corrected): the root scalar pass of `wave_note_generate` skips
every key in `debug, strays, axes, name, tmp` (`reserved5`), but the
sub-map section pass skips only `debug, strays, axes, name` (`reserved4`) —
a `tmp` sub-map IS emitted as a section.
-/
theorem C6_amended_reserved_keys (k : Bytes) (v : PyVal) (f : Nat) (pfx : Bytes) :
    (k ∈ reserved5 → note_gen_root_entry k v = []) ∧
    (k ∈ reserved4 → note_gen_block_entry f pfx k v = []) := by
  constructor
  · intro h
    unfold note_gen_root_entry
    rw [if_pos h]
  · intro h
    unfold note_gen_block_entry
    rw [if_pos h]

/-- Witness for C6: `tmp` is skipped by the root pass, `name` by the
sub-map pass. -/
theorem C6_amended_witness :
    note_gen_root_entry (bs "tmp") (.num 1) = [] ∧
    note_gen_block_entry 5 [] (bs "name") .dictNil = [] :=
  ⟨(C6_amended_reserved_keys (bs "tmp") (.num 1) 5 []).1 (by decide),
   (C6_amended_reserved_keys (bs "name") .dictNil 5 []).2 (by decide)⟩

/--
Claim C10 (code_bug): the claim states the `assert` inside `checksum` can
never fire — that after the conditional folding step the accumulator always
lies in `[-2^31, 2^31)`, for arbitrarily negative sums too.  The folding
branch only fires for sums `> 2^31`, so a buffer of 65537 shorts of
`-32768` (sum `-2^31 - 32768`, seed 0) reaches the `assert` with a value
below `-2^31` and `checksum` raises `AssertionError`.
-/
theorem C10_checksum_assert_reachable :
    checksum c10buf .little 0 131074 = .error .assertionError := by
  have hsum : (0 : Int) + (List.replicate 65537 (-32768 : Int)).sum = -(2 ^ 31) - 32768 := by
    rw [c10buf_sum]; ring
  rw [checksum_eq_core _ _ _ _ _ c10buf_shorts]
  exact checksumCore_assert _ _ _ hsum (by norm_num [checksumFold])

/-! ### Packed-archive claims -/

/--
Claim C7 counterexample: the claim says a Wave record whose embedded
header fails to decode is caught, the failure attached to that node, and
scanning continues with the remaining sibling records.  On `c7stream` —
a Wave record with an unsupported embedded version followed by a
well-formed skippable sibling record — `pack_scan_tree` instead
propagates the `FormatError`, returning no tree at all.
-/
theorem C7_counterexample : pack_scan_tree 9 c7stream 0 = .error .formatError := rfl

/--
Claim C7 (corrected): the Wave branch of `pack_scan_tree` has no
exception handling — whenever the next record is a Wave (type 3) whose
embedded header fails to decode, the per-node error propagates out of the
scan, aborting it (no failure is attached to the node and siblings are
not scanned).
-/
theorem C7_amended_wave_failure_propagates (fuel : Nat) (s : Bytes) (pos : Nat)
    (tree : PTree) (e : Err)
    (hf : 0 < fuel) (hlen : pos + 8 ≤ s.length)
    (hrec : readU .little s pos 2 % 32768 = 3)
    (hhdr : wave_read_header s (pos + 8) = .error e) :
    pack_scan_loop fuel s pos tree = .error e := by
  obtain ⟨f, rfl⟩ : ∃ f, fuel = f + 1 := ⟨fuel - 1, by omega⟩
  unfold pack_scan_loop
  rw [if_neg (by omega)]
  simp only [hrec]
  rw [if_neg (by norm_num)]
  rw [if_neg (by norm_num)]
  rw [if_neg (by norm_num)]
  simp only [if_true]
  simp only [hhdr]

/-- Witness for C7 at the concrete stream. -/
theorem C7_amended_witness : pack_scan_loop 9 c7stream 0 [] = .error .formatError :=
  C7_amended_wave_failure_propagates 9 c7stream 0 [] .formatError (by decide) (by decide)
    (by decide) (by decide)

/--
Claim C8 counterexample: the claim says that a stream whose first record
has `recordType & 0x7FFF == 10` (`DataFolderEnd`) at the top level skips
that record's `dataSize` bytes and returns without raising — for every
such stream.  With a declared size of -9 the skip seeks to absolute
position -1, which raises (`OSError` in Python) instead of returning.
-/
theorem C8_counterexample : pack_scan_tree 5 c8negstream 0 = .error .seekError := rfl

/--
Claim C8 (corrected): a stream with fewer bytes remaining than one record
header ends the scan cleanly, returning the tree built so far at the
current position; and a first record with `recordType & 0x7FFF == 10` at
the top level with a NON-NEGATIVE declared size skips `dataSize` bytes
and returns the empty tree without raising (a negative declared size
makes the skip seek negative and raise instead).
-/
theorem C8_amended_boundary :
    (∀ (fuel : Nat) (s : Bytes) (pos : Nat) (tree : PTree),
        0 < fuel → s.length < pos + 8 →
        pack_scan_loop fuel s pos tree = .ok (tree, pos)) ∧
    (∀ (fuel : Nat) (s : Bytes) (pos : Nat) (nd : Int),
        0 < fuel → pos + 8 ≤ s.length →
        readU .little s pos 2 % 32768 = 10 →
        readI .little s (pos + 4) 4 = nd → 0 ≤ nd →
        pack_scan_tree fuel s pos = .ok ([], (((pos + 8 : Nat) : Int) + nd).toNat)) := by
  constructor
  · intro fuel s pos tree hf hshort
    obtain ⟨f, rfl⟩ : ∃ f, fuel = f + 1 := ⟨fuel - 1, by omega⟩
    unfold pack_scan_loop
    rw [if_pos hshort]
  · intro fuel s pos nd hf hlen hrec hnd hnd0
    obtain ⟨f, rfl⟩ : ∃ f, fuel = f + 1 := ⟨fuel - 1, by omega⟩
    unfold pack_scan_tree pack_scan_loop
    rw [if_neg (by omega)]
    simp only [hrec, hnd]
    rw [if_neg (by norm_num)]
    rw [if_neg (by norm_num)]
    simp only [if_true]
    rw [if_neg (by omega)]

/-- Witness for C8: a 3-byte stream ends the scan cleanly; a top-level
`DataFolderEnd` record of size 6 returns the empty tree at position 14. -/
theorem C8_amended_witness :
    pack_scan_loop 3 [1, 2, 3] 0 [] = .ok ([], 0) ∧
    pack_scan_tree 3 c8stream 0 = .ok ([], ((((0 : Nat) + 8 : Nat) : Int) + 6).toNat) :=
  ⟨C8_amended_boundary.1 3 [1, 2, 3] 0 [] (by decide) (by decide),
   C8_amended_boundary.2 3 c8stream 0 6 (by decide) (by decide) (by decide) (by decide)
     (by decide)⟩

/-! ### Byte-level packing lemmas for the writer round trip (claim C1) -/

theorem natLE_length (w n : Nat) : (natLE w n).length = w := by
  induction w generalizing n with
  | zero => rfl
  | succ m ih => simp [natLE, ih]

theorem packLE_length (w : Nat) (v : Int) : (packLE w v).length = w := by
  simp [packLE, natLE_length]

theorem natLE_lt (w n : Nat) : ∀ b ∈ natLE w n, b < 256 := by
  induction w generalizing n with
  | zero => intro b hb; cases hb
  | succ m ih =>
    intro b hb
    rcases List.mem_cons.mp hb with h | h
    · subst h; exact Nat.mod_lt _ (by omega)
    · exact ih _ b h

theorem packLE_lt (w : Nat) (v : Int) : ∀ b ∈ packLE w v, b < 256 :=
  natLE_lt w _

theorem sliceB_skip (u v : Bytes) (off len : Nat) (h : u.length ≤ off) :
    sliceB (u ++ v) off len = sliceB v (off - u.length) len := by
  simp [sliceB, List.drop_append_eq_append_drop, List.drop_eq_nil_of_le h]

theorem sliceB_take (u v : Bytes) (off len : Nat) (h : off + len ≤ u.length) :
    sliceB (u ++ v) off len = sliceB u off len := by
  simp only [sliceB, List.drop_append_eq_append_drop]
  rw [List.take_append_of_le_length (by simp [List.length_drop]; omega)]

theorem sliceB_exact (u v : Bytes) (len : Nat) (h : u.length = len) :
    sliceB (u ++ v) 0 len = u := by
  simp only [sliceB, List.drop_zero]
  rw [List.take_append_of_le_length (by omega), ← h, List.take_length]

theorem sliceB_self (u : Bytes) (len : Nat) (h : u.length = len) :
    sliceB u 0 len = u := by
  simp [sliceB, ← h, List.take_length]

theorem sliceB_replicate (a : Nat) (n off len : Nat) (h : off + len ≤ n) :
    sliceB (List.replicate n a) off len = List.replicate len a := by
  simp [sliceB, List.drop_replicate, List.take_replicate]
  omega

theorem leVal_natLE (w n : Nat) : leVal (natLE w n) = n % 2 ^ (8 * w) := by
  induction w generalizing n with
  | zero => simp [natLE, leVal, Nat.mul_zero, pow_zero, Nat.mod_one]
  | succ m ih =>
    have h : 2 ^ (8 * (m + 1)) = 256 * 2 ^ (8 * m) := by ring
    rw [natLE, leVal, ih, h, Nat.mod_mul]

theorem leVal_packLE (w : Nat) (v : Int) :
    leVal (packLE w v) = (v % (2 ^ (8 * w) : Int)).toNat := by
  rw [packLE, leVal_natLE]
  have h2 : (0 : Int) < 2 ^ (8 * w) := by positivity
  have := Int.emod_nonneg v (by omega : (2 ^ (8 * w) : Int) ≠ 0)
  have hlt : v % (2 ^ (8 * w) : Int) < 2 ^ (8 * w) := Int.emod_lt_of_pos v h2
  apply Nat.mod_eq_of_lt
  have : ((v % (2 ^ (8 * w) : Int)).toNat : Int) < (2 ^ (8 * w) : Int) := by omega
  have hcast : ((2 ^ (8 * w) : Nat) : Int) = (2 ^ (8 * w) : Int) := by push_cast; ring
  omega

/-- Reading back a `w`-byte little-endian packed signed integer in range. -/
theorem toSigned_leVal_packLE (w : Nat) (v : Int) (hw : 0 < w)
    (h1 : -2 ^ (8 * w - 1) ≤ v) (h2 : v < 2 ^ (8 * w - 1)) :
    toSigned w (ordVal .little (packLE w v)) = v := by
  have hMH : (2 : Int) ^ (8 * w) = 2 ^ (8 * w - 1) * 2 := by
    have h : 8 * w - 1 + 1 = 8 * w := by omega
    conv_lhs => rw [← h]
    rw [pow_succ]
  have hvM : v % (2 ^ (8 * w) : Int) = if 0 ≤ v then v else v + 2 ^ (8 * w) := by
    by_cases h0 : 0 ≤ v
    · rw [if_pos h0]
      exact Int.emod_eq_of_lt h0 (by omega)
    · rw [if_neg h0]
      have heq : (v + 2 ^ (8 * w) * 1) % (2 ^ (8 * w) : Int) = v % (2 ^ (8 * w) : Int) :=
        Int.add_mul_emod_self_left v (2 ^ (8 * w)) 1
      rw [mul_one] at heq
      rw [← heq]
      exact Int.emod_eq_of_lt (by omega) (by omega)
  have hm : ((leVal (packLE w v) : Nat) : Int) = v % (2 ^ (8 * w) : Int) := by
    rw [leVal_packLE]
    have h2x : (0 : Int) < 2 ^ (8 * w) := by positivity
    have := Int.emod_nonneg v (by omega : (2 ^ (8 * w) : Int) ≠ 0)
    omega
  have hcastH : ((2 ^ (8 * w - 1) : Nat) : Int) = (2 : Int) ^ (8 * w - 1) := by push_cast; ring
  have hcastM : ((2 ^ (8 * w) : Nat) : Int) = (2 : Int) ^ (8 * w) := by push_cast; ring
  show toSigned w (leVal (packLE w v)) = v
  unfold toSigned
  by_cases hc : leVal (packLE w v) < 2 ^ (8 * w - 1)
  · rw [if_pos hc]
    have : ((leVal (packLE w v) : Nat) : Int) < (2 : Int) ^ (8 * w - 1) := by
      rw [← hcastH]; exact_mod_cast hc
    by_cases h0 : 0 ≤ v <;> simp [h0] at hvM <;> omega
  · rw [if_neg hc]
    have : (2 : Int) ^ (8 * w - 1) ≤ ((leVal (packLE w v) : Nat) : Int) := by
      rw [← hcastH]; exact_mod_cast Nat.le_of_not_lt hc
    by_cases h0 : 0 ≤ v <;> simp [h0] at hvM <;> omega

theorem toSigned_leVal_packLE4 (v : Int) (h1 : -2 ^ 31 ≤ v) (h2 : v < 2 ^ 31) :
    toSigned 4 (ordVal .little (packLE 4 v)) = v := by
  have := toSigned_leVal_packLE 4 v (by omega) (by norm_num; omega) (by norm_num; omega)
  exact this

theorem toSigned_leVal_packLE2 (v : Int) (h1 : -2 ^ 15 ≤ v) (h2 : v < 2 ^ 15) :
    toSigned 2 (ordVal .little (packLE 2 v)) = v := by
  have := toSigned_leVal_packLE 2 v (by omega) (by norm_num; omega) (by norm_num; omega)
  exact this

theorem toSigned4_zeros : toSigned 4 (ordVal .little (List.replicate 4 0)) = 0 := by decide

theorem toSigned4_zeros4 : toSigned 4 (ordVal .little [0, 0, 0, 0]) = 0 := by decide

theorem toSigned4_pack0 : toSigned 4 (ordVal .little (packLE 4 0)) = 0 := by decide

/-- Unpacking the container header the writer emitted. -/
theorem unpackBin5_of_packed (c wfm note : Int) (tail : Bytes)
    (hw1 : -2 ^ 31 ≤ wfm) (hw2 : wfm < 2 ^ 31) (hn1 : -2 ^ 31 ≤ note) (hn2 : note < 2 ^ 31) :
    unpackBin 5 .little (packBin5 c wfm note ++ tail) =
      { version := 5, wfmSize := wfm, noteSize := note, byte_order := .little,
        dimEUnitsSize := [0, 0, 0, 0], dimLabelsSize := [0, 0, 0, 0] } := by
  unfold unpackBin
  rw [if_neg (by decide), if_neg (by decide), if_neg (by decide)]
  unfold packBin5 readI readU
  simp only [List.append_assoc]
  simp only [sliceB_skip, sliceB_take, sliceB_self, sliceB_replicate, packLE_length,
    List.length_replicate, Nat.reduceLeDiff, Nat.reduceSub, Nat.reduceAdd, le_refl,
    Nat.le_refl]
  rw [toSigned_leVal_packLE4 wfm hw1 hw2, toSigned_leVal_packLE4 note hn1 hn2]
  simp [toSigned4_zeros, toSigned4_pack0, toSigned4_zeros4]

/-- Unpacking the wave header the writer emitted. -/
theorem unpackWave5_of_packed (c wfm note npnts : Int) (ty : Nat) (bn : Bytes)
    (d0 d1 d2 d3 : Int) (a0 a1 a2 a3 b0 b1 b2 b3 : Bytes) (tail : Bytes)
    (hbn : bn.length = 32)
    (ha0 : a0.length = 8) (ha1 : a1.length = 8) (ha2 : a2.length = 8) (ha3 : a3.length = 8)
    (hb0 : b0.length = 8) (hb1 : b1.length = 8) (hb2 : b2.length = 8) (hb3 : b3.length = 8)
    (hnp1 : -2 ^ 31 ≤ npnts) (hnp2 : npnts < 2 ^ 31) (hty : ty < 2 ^ 15)
    (hd0a : -2 ^ 31 ≤ d0) (hd0b : d0 < 2 ^ 31) (hd1a : -2 ^ 31 ≤ d1) (hd1b : d1 < 2 ^ 31)
    (hd2a : -2 ^ 31 ≤ d2) (hd2b : d2 < 2 ^ 31) (hd3a : -2 ^ 31 ≤ d3) (hd3b : d3 < 2 ^ 31) :
    unpackWave 5 .little
      (packBin5 c wfm note ++
        packWave5core npnts ty bn [d0, d1, d2, d3] [a0, a1, a2, a3] [b0, b1, b2, b3] ++ tail)
      64 =
      { npnts := npnts, type := (ty : Int), bname := bn, name := [],
        nDim := [d0, d1, d2, d3], sfA := [a0, a1, a2, a3], sfB := [b0, b1, b2, b3],
        hasSf := true } := by
  unfold unpackWave
  rw [if_pos rfl]
  unfold packBin5 packWave5core readI readU
  simp only [List.map_cons, List.map_nil, List.flatten_cons, List.flatten_nil,
    List.append_nil, List.append_assoc]
  simp only [sliceB_skip, sliceB_take, sliceB_self, sliceB_replicate, packLE_length,
    List.length_replicate, hbn, ha0, ha1, ha2, ha3, hb0, hb1, hb2, hb3,
    Nat.reduceLeDiff, Nat.reduceSub, Nat.reduceAdd, le_refl, Nat.le_refl]
  rw [toSigned_leVal_packLE4 npnts hnp1 hnp2,
    toSigned_leVal_packLE2 (ty : Int) (by omega) (by exact_mod_cast hty),
    toSigned_leVal_packLE4 d0 hd0a hd0b, toSigned_leVal_packLE4 d1 hd1a hd1b,
    toSigned_leVal_packLE4 d2 hd2a hd2b, toSigned_leVal_packLE4 d3 hd3a hd3b]

/-- `readShorts` only consumes its first `2n` bytes. -/
theorem readShorts_append (bo : ByteOrder) :
    ∀ (n : Nat) (u v : Bytes), u.length = 2 * n →
      readShorts bo n (u ++ v) = readShorts bo n u := by
  intro n
  induction n with
  | zero => intro u v h; rfl
  | succ m ih =>
    intro u v h
    match u with
    | [] => simp at h
    | [b0] => simp at h; omega
    | b0 :: b1 :: r =>
      have hr : r.length = 2 * m := by simp at h; omega
      show readShorts bo (m + 1) (b0 :: b1 :: (r ++ v)) = readShorts bo (m + 1) (b0 :: b1 :: r)
      simp only [readShorts]
      rw [ih r v hr]

/-- Splitting `readShorts` across a concatenation at a `2m`-byte prefix. -/
theorem readShorts_split (bo : ByteOrder) :
    ∀ (m : Nat) (u v : Bytes) (n : Nat), u.length = 2 * m →
      readShorts bo (m + n) (u ++ v) =
        (readShorts bo m u).bind
          (fun xs => (readShorts bo n v).map (fun ys => xs ++ ys)) := by
  intro m
  induction m with
  | zero =>
    intro u v n h
    have hu : u = [] := List.eq_nil_of_length_eq_zero (by omega)
    subst hu
    simp [readShorts]
  | succ k ih =>
    intro u v n h
    match u with
    | [] => simp at h
    | [b0] => simp at h; omega
    | b0 :: b1 :: r =>
      have hr : r.length = 2 * k := by simp at h; omega
      have hshow : k + 1 + n = (k + n) + 1 := by omega
      rw [hshow]
      show (readShorts bo (k + n) (r ++ v)).map (fun l => int16of bo b0 b1 :: l) =
        ((readShorts bo k r).map (fun l => int16of bo b0 b1 :: l)).bind
          (fun xs => (readShorts bo n v).map (fun ys => xs ++ ys))
      rw [ih r v n hr]
      cases readShorts bo k r <;> cases readShorts bo n v <;> simp [Option.bind]

theorem readShorts_one_packLE (v : Int) (R : Bytes) :
    readShorts .little 1 (packLE 2 v ++ R) = some [toSigned 2 ((v % 65536).toNat)] := by
  have h0 : (0 : Int) ≤ v % 65536 := Int.emod_nonneg v (by omega)
  have hlt : v % 65536 < 65536 := Int.emod_lt_of_pos v (by omega)
  simp only [packLE, natLE, List.cons_append, List.nil_append]
  show (readShorts .little 0 R).map _ = _
  simp only [readShorts, Option.map_some']
  congr 2
  simp only [int16of, ordVal, leVal]
  have hpow : (2 : Int) ^ (8 * 2) = 65536 := by norm_num
  rw [hpow]
  congr 1
  omega

theorem readShorts_one_packLE0 (v : Int) :
    readShorts .little 1 (packLE 2 v) = some [toSigned 2 ((v % 65536).toNat)] := by
  have := readShorts_one_packLE v []
  rwa [List.append_nil] at this

/-- The signed-16 reinterpretation of `v mod 2^16`: congruent to `v` and
in range. -/
theorem toSigned2_spec (v : Int) :
    (toSigned 2 ((v % 65536).toNat) - v) % 65536 = 0 ∧
      -2 ^ 15 ≤ toSigned 2 ((v % 65536).toNat) ∧ toSigned 2 ((v % 65536).toNat) < 2 ^ 15 := by
  have h0 : (0 : Int) ≤ v % 65536 := Int.emod_nonneg v (by omega)
  have hlt : v % 65536 < 65536 := Int.emod_lt_of_pos v (by omega)
  have hm : ((v % 65536).toNat : Int) = v % 65536 := Int.toNat_of_nonneg h0
  have hved : v % 65536 = v - 65536 * (v / 65536) := Int.emod_def v 65536
  unfold toSigned
  norm_num
  by_cases hc : (v % 65536).toNat < 32768 <;> [rw [if_pos hc]; rw [if_neg hc]] <;>
    constructor <;> omega

theorem packBin5_length (c wfm note : Int) : (packBin5 c wfm note).length = 64 := by
  simp [packBin5, packLE_length]

/-- The 192 shorts of the checksummed span of a written v5 file: the
version short 5, the checksum field, and 190 shorts independent of the
checksum field. -/
theorem readShorts_packBin5 (c wfm note : Int) (core : Bytes) :
    readShorts .little 192 (packBin5 c wfm note ++ core) =
      (readShorts .little 190
          (packLE 4 wfm ++ (packLE 4 0 ++ (packLE 4 note ++ (List.replicate 48 0 ++ core))))).map
        (fun xs => 5 :: toSigned 2 ((c % 65536).toNat) :: xs) := by
  unfold packBin5
  simp only [List.append_assoc]
  rw [show (192 : Nat) = 1 + 191 from rfl,
    readShorts_split .little 1 (packLE 2 5) _ 191 (by simp [packLE_length])]
  rw [show readShorts ByteOrder.little 1 (packLE 2 5) = some [(5 : Int)] from by decide]
  rw [show (191 : Nat) = 1 + 190 from rfl,
    readShorts_split .little 1 (packLE 2 c) _ 190 (by simp [packLE_length])]
  rw [readShorts_one_packLE0 c]
  cases readShorts .little 190
      (packLE 4 wfm ++ (packLE 4 0 ++ (packLE 4 note ++ (List.replicate 48 0 ++ core)))) <;>
    simp [Option.bind]

/--
The central checksum fact for the writer: with the checksum field zero the
384-byte span checksums to some in-range `chk`, and with the checksum
field `-chk` the span checksums to zero — regardless of what follows the
first 384 bytes.
-/
theorem checksum_roundtrip (wfm note : Int) (core : Bytes)
    (hcl : core.length = 320) (hcb : ∀ b ∈ core, b < 256) :
    ∃ chk, -2 ^ 15 ≤ chk ∧ chk < 2 ^ 15 ∧
      (∀ tail, checksum (packBin5 0 wfm note ++ (core ++ tail)) .little 0 384 = .ok chk) ∧
      (∀ tail, checksum (packBin5 (-chk) wfm note ++ (core ++ tail)) .little 0 384 = .ok 0) := by
  set REST : Bytes :=
    packLE 4 wfm ++ (packLE 4 0 ++ (packLE 4 note ++ (List.replicate 48 0 ++ core))) with hREST
  have hRl : REST.length = 380 := by
    simp [hREST, hcl, packLE_length]
  have hRb : ∀ b ∈ REST, b < 256 := by
    intro b hb
    simp only [hREST, List.mem_append, List.mem_replicate] at hb
    rcases hb with h | h | h | h | h
    · exact packLE_lt 4 wfm b h
    · exact packLE_lt 4 0 b h
    · exact packLE_lt 4 note b h
    · omega
    · exact hcb b h
  obtain ⟨ys, hys, hylen, hybnd⟩ := readShorts_total .little 190 REST (by omega) hRb
  have hsum := sum_bounds_of_mem ys (2 ^ 15) hybnd
  rw [hylen] at hsum
  set S0 : Int := 5 + (0 + ys.sum) with hS0
  set chk : Int := if S0 % 65536 ≥ 2 ^ 15 then S0 % 65536 - 65536 else S0 % 65536 with hchk
  have hS0m : (0 : Int) ≤ S0 % 65536 ∧ S0 % 65536 < 65536 :=
    ⟨Int.emod_nonneg S0 (by omega), Int.emod_lt_of_pos S0 (by omega)⟩
  have hchkS0 : (chk - S0) % 65536 = 0 := by
    rw [hchk]
    have hd : S0 % 65536 = S0 - 65536 * (S0 / 65536) := Int.emod_def S0 65536
    by_cases hc : S0 % 65536 ≥ 2 ^ 15 <;> [rw [if_pos hc]; rw [if_neg hc]] <;> omega
  have hchkb : -2 ^ 15 ≤ chk ∧ chk < 2 ^ 15 := by
    rw [hchk]
    by_cases hc : S0 % 65536 ≥ 2 ^ 15 <;> [rw [if_pos hc]; rw [if_neg hc]] <;> omega
  have key : ∀ (c : Int) (tail : Bytes),
      checksum (packBin5 c wfm note ++ (core ++ tail)) .little 0 384 =
        checksumCore 0 (5 :: toSigned 2 ((c % 65536).toNat) :: ys) := by
    intro c tail
    unfold checksum
    have hassoc : packBin5 c wfm note ++ (core ++ tail) =
        (packBin5 c wfm note ++ core) ++ tail := by
      rw [List.append_assoc]
    rw [hassoc]
    have h384 : (384 : Nat) / 2 = 192 := by norm_num
    rw [h384]
    rw [readShorts_append .little 192 (packBin5 c wfm note ++ core) tail
      (by simp [packBin5_length, hcl])]
    rw [readShorts_packBin5 c wfm note core, hys]
    rfl
  refine ⟨chk, hchkb.1, hchkb.2, ?_, ?_⟩
  · intro tail
    rw [key 0 tail]
    have h0 : toSigned 2 (((0 : Int) % 65536).toNat) = 0 := by decide
    rw [h0]
    rw [checksumCore_bounded 0 (5 :: 0 :: ys) (by simp; omega) (by simp; omega)]
    rw [hchk, hS0]
    norm_num
  · intro tail
    rw [key (-chk) tail]
    obtain ⟨hcong, hb1, hb2⟩ := toSigned2_spec (-chk)
    set sc : Int := toSigned 2 (((-chk) % 65536).toNat) with hsc
    rw [checksumCore_bounded 0 (5 :: sc :: ys) (by simp; omega) (by simp; omega)]
    simp only [List.sum_cons]
    have hSp : ((0 : Int) + (5 + (sc + ys.sum))) % 65536 = 0 := by omega
    rw [hSp]
    norm_num

theorem bytesLt_append {u v : Bytes} (hu : ∀ b ∈ u, b < 256) (hv : ∀ b ∈ v, b < 256) :
    ∀ b ∈ u ++ v, b < 256 := by
  intro b hb
  rcases List.mem_append.mp hb with h | h
  exacts [hu b h, hv b h]

theorem bytesLt_replicate (n a : Nat) (h : a < 256) : ∀ b ∈ List.replicate n a, b < 256 := by
  intro b hb
  rw [List.eq_of_mem_replicate hb]
  exact h

set_option maxRecDepth 4000 in
theorem packWave5core_length (npnts : Int) (ty : Nat) (bn : Bytes) (d0 d1 d2 d3 : Int)
    (a0 a1 a2 a3 b0 b1 b2 b3 : Bytes)
    (hbn : bn.length = 32)
    (ha0 : a0.length = 8) (ha1 : a1.length = 8) (ha2 : a2.length = 8) (ha3 : a3.length = 8)
    (hb0 : b0.length = 8) (hb1 : b1.length = 8) (hb2 : b2.length = 8) (hb3 : b3.length = 8) :
    (packWave5core npnts ty bn [d0, d1, d2, d3] [a0, a1, a2, a3] [b0, b1, b2, b3]).length =
      320 := by
  simp [packWave5core, packLE_length, hbn, ha0, ha1, ha2, ha3, hb0, hb1, hb2, hb3]

theorem packWave5core_lt (npnts : Int) (ty : Nat) (bn : Bytes) (d0 d1 d2 d3 : Int)
    (a0 a1 a2 a3 b0 b1 b2 b3 : Bytes)
    (hbnb : ∀ b ∈ bn, b < 256)
    (ha0 : ∀ b ∈ a0, b < 256) (ha1 : ∀ b ∈ a1, b < 256)
    (ha2 : ∀ b ∈ a2, b < 256) (ha3 : ∀ b ∈ a3, b < 256)
    (hb0 : ∀ b ∈ b0, b < 256) (hb1 : ∀ b ∈ b1, b < 256)
    (hb2 : ∀ b ∈ b2, b < 256) (hb3 : ∀ b ∈ b3, b < 256) :
    ∀ b ∈ packWave5core npnts ty bn [d0, d1, d2, d3] [a0, a1, a2, a3] [b0, b1, b2, b3],
      b < 256 := by
  unfold packWave5core
  simp only [List.map_cons, List.map_nil, List.flatten_cons, List.flatten_nil,
    List.append_nil, List.append_assoc, List.forall_mem_append]
  exact ⟨bytesLt_replicate 12 0 (by omega), packLE_lt 4 npnts, packLE_lt 2 (ty : Int),
    bytesLt_replicate 8 0 (by omega), packLE_lt 2 1, hbnb,
    bytesLt_replicate 8 0 (by omega), packLE_lt 4 d0, packLE_lt 4 d1, packLE_lt 4 d2,
    packLE_lt 4 d3, ha0, ha1, ha2, ha3, hb0, hb1, hb2, hb3,
    bytesLt_replicate 150 0 (by omega), by decide, bytesLt_replicate 20 0 (by omega)⟩

/-- Re-chunking a flattening of equal-length chunks gives the chunks
back. -/
theorem chunksOfAux_flatten (k : Nat) (hk : 0 < k) :
    ∀ (l : List Bytes) (f : Nat), (∀ e ∈ l, e.length = k) → l.flatten.length ≤ f →
      chunksOfAux k f l.flatten = l := by
  intro l
  induction l with
  | nil =>
    intro f _ _
    cases f <;> rfl
  | cons e t ih =>
    intro f hlen hf
    have he : e.length = k := hlen e (by simp)
    have hfl : (e :: t).flatten.length = k + t.flatten.length := by
      simp [List.flatten_cons, he]
    match f, hf with
    | 0, hf =>
      exfalso
      rw [hfl] at hf
      omega
    | f + 1, hf =>
      match e, he with
      | [], he =>
        exfalso
        simp only [List.length_nil] at he
        omega
      | c :: e2, he =>
        show chunksOfAux k (f + 1) ((c :: e2) ++ t.flatten) = (c :: e2) :: t
        rw [List.cons_append]
        show ((c :: (e2 ++ t.flatten)).take k :: chunksOfAux k f ((c :: (e2 ++ t.flatten)).drop k)) = (c :: e2) :: t
        rw [← List.cons_append]
        have htake : ((c :: e2) ++ t.flatten).take k = c :: e2 := by
          rw [← he, List.take_left]
        have hdrop : ((c :: e2) ++ t.flatten).drop k = t.flatten := by
          rw [← he, List.drop_left]
        rw [htake, hdrop]
        congr 1
        apply ih f (fun x hx => hlen x (by simp [hx]))
        rw [hfl] at hf
        omega

theorem chunksOf_flatten (k : Nat) (hk : 0 < k) (l : List Bytes)
    (h : ∀ e ∈ l, e.length = k) : chunksOf k l.flatten = l :=
  chunksOfAux_flatten k hk l l.flatten.length h le_rfl

theorem exists_list_eq_four {α : Type} (l : List α) (h : l.length = 4) :
    ∃ a b c d, l = [a, b, c, d] := by
  rcases l with _ | ⟨a, t1⟩
  · simp at h
  rcases t1 with _ | ⟨b, t2⟩
  · simp at h
  rcases t2 with _ | ⟨c, t3⟩
  · simp at h
  rcases t3 with _ | ⟨d, t4⟩
  · simp at h
  rcases t4 with _ | ⟨e, t5⟩
  · exact ⟨a, b, c, d, rfl⟩
  · simp only [List.length_cons, List.length_nil] at h
    omega

theorem filter_pos_of_padded (sh : List Nat) (k : Nat) (hpos : ∀ n ∈ sh, 0 < n) :
    ((sh.map Int.ofNat ++ List.replicate k 0).filter (fun n => 0 < n)) =
      sh.map Int.ofNat := by
  rw [List.filter_append]
  have h1 : (sh.map Int.ofNat).filter (fun n => 0 < n) = sh.map Int.ofNat := by
    rw [List.filter_eq_self]
    intro a ha
    simp only [List.mem_map] at ha
    obtain ⟨m, hm, rfl⟩ := ha
    have := hpos m hm
    simp only [decide_eq_true_eq]
    exact Int.ofNat_pos.mpr this
  have h2 : (List.replicate k (0 : Int)).filter (fun n => 0 < n) = [] := by
    induction k with
    | zero => rfl
    | succ m ihm =>
      rw [List.replicate_succ, List.filter_cons]
      simp only [decide_eq_true_eq]
      rw [if_neg (by omega)]
      exact ihm
  rw [h1, h2, List.append_nil]

theorem map_toNat_map_ofNat (sh : List Nat) :
    (sh.map Int.ofNat).map Int.toNat = sh := by
  induction sh with
  | nil => rfl
  | cons a t ih => simp [ih, Int.toNat_ofNat]

theorem range_map_getD_zip (a b : List Bytes) (n : Nat) (ha : a.length = n)
    (hb : b.length = n) :
    (List.range n).map (fun i => (a.getD i [], b.getD i [])) = a.zip b := by
  apply List.ext_getElem
  · simp [ha, hb]
  · intro i h1 h2
    simp only [List.getElem_map, List.getElem_range, List.getElem_zip]
    have hia : i < a.length := by simp at h1; omega
    have hib : i < b.length := by omega
    rw [List.getD_eq_getElem a [] hia, List.getD_eq_getElem b [] hib]

theorem pyDictLookup_set_ne (m : PyVal) (k0 key : Bytes) (x : PyVal) (h : k0 ≠ key) :
    pyDictLookup (pyDictSet m k0 x) key = pyDictLookup m key := by
  induction m with
  | num n => rfl
  | str s => rfl
  | listNil => rfl
  | listCons hd tl ih1 ih2 => rfl
  | dictNil =>
    simp only [pyDictSet, pyDictLookup]
    rw [if_neg h]
  | dictCons k v t ihv iht =>
    simp only [pyDictSet]
    by_cases hk : k = k0
    · rw [if_pos hk]
      subst hk
      simp only [pyDictLookup]
      rw [if_neg h, if_neg h]
    · rw [if_neg hk]
      simp only [pyDictLookup]
      by_cases hkey : k = key
      · rw [if_pos hkey, if_pos hkey]
      · rw [if_neg hkey, if_neg hkey, iht]

theorem pyDictUpdate_lookup_of_none (nmap : PyVal) :
    ∀ (info : PyVal) (key : Bytes), pyDictLookup nmap key = none →
      pyDictLookup (pyDictUpdate info nmap) key = pyDictLookup info key := by
  induction nmap with
  | num n => intro info key _; rfl
  | str s => intro info key _; rfl
  | listNil => intro info key _; rfl
  | listCons hd tl ih1 ih2 => intro info key _; rfl
  | dictNil => intro info key _; rfl
  | dictCons k v t ihv iht =>
    intro info key h
    simp only [pyDictLookup] at h
    by_cases hk : k = key
    · rw [if_pos hk] at h
      cases h
    · rw [if_neg hk] at h
      show pyDictLookup (pyDictUpdate (pyDictSet info k v) t) key = pyDictLookup info key
      rw [iht (pyDictSet info k v) key h, pyDictLookup_set_ne info k key v hk]

theorem detectVersion_packed (c wfm note : Int) (X : Bytes) :
    detectVersion (packBin5 c wfm note ++ X) 0 = some (5, .little) := by
  have hs : sliceB (packBin5 c wfm note ++ X) 0 2 = packLE 2 5 := by
    unfold packBin5
    simp only [List.append_assoc]
    rw [sliceB_take _ _ 0 2 (by simp [packLE_length])]
    exact sliceB_self _ 2 (packLE_length 2 5)
  unfold detectVersion
  simp only [hs]
  decide

theorem intOfNat_cast (n : Nat) : Int.ofNat n = (n : Int) := rfl

/--
Full evaluation of `wave_write` on a wave meeting the round-trip
conditions: the writer succeeds, and its output is the container header
(checksum field `-chk`), the 320-byte wave-header core, the column-major
payload and the generated note, with the checksummed span summing to
zero.
-/
theorem wave_write_eval (w : WaveIn) (wname : Bytes)
    (hlen1 : 1 ≤ w.shape.length) (hlen4 : w.shape.length ≤ 4)
    (hpos : ∀ n ∈ w.shape, 0 < n)
    (hname : pyDictLookup w.info (bs "name") = some (.str wname))
    (hnlen : wname.length ≤ 31) (hnby : ∀ b ∈ wname, b < 256)
    (hdel : w.deltas.length = w.shape.length)
    (hdelE : ∀ d ∈ w.deltas, d.length = 8 ∧ ∀ b ∈ d, b < 256)
    (hoff : w.offsets.length = w.shape.length)
    (hoffE : ∀ d ∈ w.offsets, d.length = 8 ∧ ∀ b ∈ d, b < 256)
    (hD4 : 4 ≤ w.shape.prod * tyItemsize w.ty)
    (hD31 : w.shape.prod * tyItemsize w.ty + 320 < 2 ^ 31) :
    ∃ chk n0 n1 n2 n3 a0 a1 a2 a3 b0 b1 b2 b3,
      w.shape.map Int.ofNat ++ List.replicate (4 - w.shape.length) 0 = [n0, n1, n2, n3] ∧
      w.deltas ++ List.replicate (4 - w.shape.length) zeros8 = [a0, a1, a2, a3] ∧
      w.offsets ++ List.replicate (4 - w.shape.length) zeros8 = [b0, b1, b2, b3] ∧
      (a0.length = 8 ∧ a1.length = 8 ∧ a2.length = 8 ∧ a3.length = 8) ∧
      (b0.length = 8 ∧ b1.length = 8 ∧ b2.length = 8 ∧ b3.length = 8) ∧
      ((-2 ^ 31 ≤ n0 ∧ n0 < 2 ^ 31) ∧ (-2 ^ 31 ≤ n1 ∧ n1 < 2 ^ 31) ∧
        (-2 ^ 31 ≤ n2 ∧ n2 < 2 ^ 31) ∧ (-2 ^ 31 ≤ n3 ∧ n3 < 2 ^ 31)) ∧
      (packWave5core ((w.shape.prod : Nat) : Int) (tyCode w.ty)
          (wname ++ List.replicate (32 - wname.length) 0)
          [n0, n1, n2, n3] [a0, a1, a2, a3] [b0, b1, b2, b3]).length = 320 ∧
      (∀ tail, checksum
          (packBin5 (-chk)
              ((WaveHeader5_size : Int) + ((w.shape.prod * tyItemsize w.ty : Nat) : Int) - 4)
              ((wave_note_generate w.info).length : Int) ++
            (packWave5core ((w.shape.prod : Nat) : Int) (tyCode w.ty)
                (wname ++ List.replicate (32 - wname.length) 0)
                [n0, n1, n2, n3] [a0, a1, a2, a3] [b0, b1, b2, b3] ++ tail))
          .little 0 384 = .ok 0) ∧
      wave_write w none = .ok
        (packBin5 (-chk)
            ((WaveHeader5_size : Int) + ((w.shape.prod * tyItemsize w.ty : Nat) : Int) - 4)
            ((wave_note_generate w.info).length : Int) ++
          (packWave5core ((w.shape.prod : Nat) : Int) (tyCode w.ty)
              (wname ++ List.replicate (32 - wname.length) 0)
              [n0, n1, n2, n3] [a0, a1, a2, a3] [b0, b1, b2, b3] ++
            (w.elemsF.flatten ++ wave_note_generate w.info))) := by
  have hne : w.shape ≠ [] := by
    intro h
    rw [h] at hlen1
    simp at hlen1
  have hiszpos : 0 < tyItemsize w.ty := by cases w.ty <;> decide
  have hprodle : w.shape.prod ≤ w.shape.prod * tyItemsize w.ty :=
    Nat.le_mul_of_pos_right _ hiszpos
  have hprod31 : w.shape.prod < 2 ^ 31 := by omega
  have htake31 : wname.take 31 = wname := List.take_of_length_le (by omega)
  have hb32 : (wname ++ List.replicate (32 - wname.length) 0).length = 32 := by
    simp
    omega
  obtain ⟨n0, n1, n2, n3, hnDim⟩ :=
    exists_list_eq_four (w.shape.map Int.ofNat ++ List.replicate (4 - w.shape.length) 0)
      (by simp; omega)
  obtain ⟨a0, a1, a2, a3, hA⟩ :=
    exists_list_eq_four (w.deltas ++ List.replicate (4 - w.shape.length) zeros8)
      (by simp [hdel]; omega)
  obtain ⟨b0, b1, b2, b3, hB⟩ :=
    exists_list_eq_four (w.offsets ++ List.replicate (4 - w.shape.length) zeros8)
      (by simp [hoff]; omega)
  have hAfacts : ∀ x ∈ w.deltas ++ List.replicate (4 - w.shape.length) zeros8,
      x.length = 8 ∧ ∀ b ∈ x, b < 256 := by
    intro x hx
    rcases List.mem_append.mp hx with h | h
    · exact hdelE x h
    · rw [List.eq_of_mem_replicate h]
      refine ⟨by simp [zeros8], ?_⟩
      intro b hb
      rw [List.eq_of_mem_replicate hb]
      omega
  have hBfacts : ∀ x ∈ w.offsets ++ List.replicate (4 - w.shape.length) zeros8,
      x.length = 8 ∧ ∀ b ∈ x, b < 256 := by
    intro x hx
    rcases List.mem_append.mp hx with h | h
    · exact hoffE x h
    · rw [List.eq_of_mem_replicate h]
      refine ⟨by simp [zeros8], ?_⟩
      intro b hb
      rw [List.eq_of_mem_replicate hb]
      omega
  have ha0 := hAfacts a0 (by rw [hA]; simp)
  have ha1 := hAfacts a1 (by rw [hA]; simp)
  have ha2 := hAfacts a2 (by rw [hA]; simp)
  have ha3 := hAfacts a3 (by rw [hA]; simp)
  have hb0 := hBfacts b0 (by rw [hB]; simp)
  have hb1 := hBfacts b1 (by rw [hB]; simp)
  have hb2 := hBfacts b2 (by rw [hB]; simp)
  have hb3 := hBfacts b3 (by rw [hB]; simp)
  have hnfacts : ∀ x ∈ w.shape.map Int.ofNat ++ List.replicate (4 - w.shape.length) 0,
      -2 ^ 31 ≤ x ∧ x < 2 ^ 31 := by
    intro x hx
    rcases List.mem_append.mp hx with h | h
    · simp only [List.mem_map] at h
      obtain ⟨k, hk, rfl⟩ := h
      have hkp : k ≤ w.shape.prod :=
        List.single_le_prod (fun y hy => hpos y hy) k hk
      rw [intOfNat_cast]
      omega
    · rw [List.eq_of_mem_replicate h]
      omega
  have hn0 := hnfacts n0 (by rw [hnDim]; simp)
  have hn1 := hnfacts n1 (by rw [hnDim]; simp)
  have hn2 := hnfacts n2 (by rw [hnDim]; simp)
  have hn3 := hnfacts n3 (by rw [hnDim]; simp)
  have hcoreL := packWave5core_length ((w.shape.prod : Nat) : Int) (tyCode w.ty)
    (wname ++ List.replicate (32 - wname.length) 0) n0 n1 n2 n3 a0 a1 a2 a3 b0 b1 b2 b3
    hb32 ha0.1 ha1.1 ha2.1 ha3.1 hb0.1 hb1.1 hb2.1 hb3.1
  have hcoreB := packWave5core_lt ((w.shape.prod : Nat) : Int) (tyCode w.ty)
    (wname ++ List.replicate (32 - wname.length) 0) n0 n1 n2 n3 a0 a1 a2 a3 b0 b1 b2 b3
    (bytesLt_append hnby (bytesLt_replicate _ 0 (by omega)))
    ha0.2 ha1.2 ha2.2 ha3.2 hb0.2 hb1.2 hb2.2 hb3.2
  obtain ⟨chk, hc1, hc2, hw, hr⟩ := checksum_roundtrip
    ((WaveHeader5_size : Int) + ((w.shape.prod * tyItemsize w.ty : Nat) : Int) - 4)
    ((wave_note_generate w.info).length : Int) _ hcoreL hcoreB
  refine ⟨chk, n0, n1, n2, n3, a0, a1, a2, a3, b0, b1, b2, b3, hnDim, hA, hB,
    ⟨ha0.1, ha1.1, ha2.1, ha3.1⟩, ⟨hb0.1, hb1.1, hb2.1, hb3.1⟩,
    ⟨hn0, hn1, hn2, hn3⟩, hcoreL, hr, ?_⟩
  unfold wave_write
  rw [if_neg (by omega)]
  simp only [hname]
  rw [htake31]
  rw [if_neg (by simp [hb32])]
  simp only [Option.getD_none, if_neg hne, packWave5, padDoubles]
  have htakeD : w.deltas.take w.shape.length = w.deltas := by
    rw [← hdel]
    exact List.take_length w.deltas
  have htakeO : w.offsets.take w.shape.length = w.offsets := by
    rw [← hoff]
    exact List.take_length w.offsets
  rw [htakeD, htakeO, hnDim, hA, hB]
  rw [show BinHeader5_size + WaveHeader5_size - 4 = 384 from rfl]
  rw [hw (List.replicate 4 0)]
  rw [show WaveHeader5_size - 4 = 320 from rfl]
  have htakeC : (packWave5core ((w.shape.prod : Nat) : Int) (tyCode w.ty)
      (wname ++ List.replicate (32 - wname.length) 0)
      [n0, n1, n2, n3] [a0, a1, a2, a3] [b0, b1, b2, b3] ++ List.replicate 4 0).take 320 =
      packWave5core ((w.shape.prod : Nat) : Int) (tyCode w.ty)
        (wname ++ List.replicate (32 - wname.length) 0)
        [n0, n1, n2, n3] [a0, a1, a2, a3] [b0, b1, b2, b3] := by
    rw [← hcoreL]
    exact List.take_left _ _
  rw [htakeC]
  simp [List.append_assoc]

theorem flatten_length_uniform (l : List Bytes) (k : Nat) (h : ∀ e ∈ l, e.length = k) :
    l.flatten.length = l.length * k := by
  induction l with
  | nil => simp
  | cons e t ih =>
    simp only [List.flatten_cons, List.length_append, List.length_cons, h e (by simp)]
    rw [ih (fun x hx => h x (by simp [hx]))]
    ring

theorem readF_zero (s : Bytes) (pos : Nat) (h : pos ≤ s.length) :
    readF s pos 0 = ([], pos) := by
  unfold readF
  rw [if_neg (by omega)]
  simp [sliceB]
  omega

theorem except_ok_bind {ε α β : Type} (x : α) (f : α → Except ε β) :
    (Except.ok (ε := ε) x).bind f = f x := rfl

/-- Decoding the header of a freshly written v5 stream: symbolic in all
header field values, so it applies to the writer output by unification. -/
theorem c1_read_header (chk wfmV noteV npntsV : Int) (tyc : Nat) (bn : Bytes)
    (n0 n1 n2 n3 : Int) (a0 a1 a2 a3 b0 b1 b2 b3 : Bytes) (F NT : Bytes)
    (hb32 : bn.length = 32)
    (ha0 : a0.length = 8) (ha1 : a1.length = 8) (ha2 : a2.length = 8) (ha3 : a3.length = 8)
    (hb0 : b0.length = 8) (hb1 : b1.length = 8) (hb2 : b2.length = 8) (hb3 : b3.length = 8)
    (hn0 : -2 ^ 31 ≤ n0 ∧ n0 < 2 ^ 31) (hn1 : -2 ^ 31 ≤ n1 ∧ n1 < 2 ^ 31)
    (hn2 : -2 ^ 31 ≤ n2 ∧ n2 < 2 ^ 31) (hn3 : -2 ^ 31 ≤ n3 ∧ n3 < 2 ^ 31)
    (hwfm1 : -2 ^ 31 ≤ wfmV) (hwfm2 : wfmV < 2 ^ 31)
    (hnote1 : -2 ^ 31 ≤ noteV) (hnote2 : noteV < 2 ^ 31)
    (hnp1 : -2 ^ 31 ≤ npntsV) (hnp2 : npntsV < 2 ^ 31)
    (htyc : tyc < 2 ^ 15)
    (hF4 : 4 ≤ F.length)
    (hr0 : checksum (packBin5 (-chk) wfmV noteV ++ (packWave5core npntsV tyc bn [n0, n1, n2, n3] [a0, a1, a2, a3] [b0, b1, b2, b3] ++ F.take 4)) .little 0 384 = .ok 0) :
    wave_read_header (packBin5 (-chk) wfmV noteV ++ (packWave5core npntsV tyc bn [n0, n1, n2, n3] [a0, a1, a2, a3] [b0, b1, b2, b3] ++ (F ++ NT))) 0 =
      .ok ({ type := (tyc : Int), npnts := npntsV, bname := bn, name := bn, nDim := [n0, n1, n2, n3], sfA := [a0, a1, a2, a3], sfB := [b0, b1, b2, b3], hasSf := true },
           { version := 5, wfmSize := wfmV, noteSize := noteV, formulaSize := 0, dataEUnitsSize := 0, dimEUnitsSize := [0, 0, 0, 0], dimLabelsSize := [0, 0, 0, 0], sIndicesSize := 0, tail_size := 4, wave_data_size := wfmV - (((324 : Nat) : Int) - ((4 : Nat) : Int)), tail_data := F.take 4, byte_order := .little, note := [], formula := [] }, 388) := by
  have hcore320 := packWave5core_length npntsV tyc bn n0 n1 n2 n3 a0 a1 a2 a3 b0 b1 b2 b3
    hb32 ha0 ha1 ha2 ha3 hb0 hb1 hb2 hb3
  have hb : sliceB (packBin5 (-chk) wfmV noteV ++ (packWave5core npntsV tyc bn [n0, n1, n2, n3] [a0, a1, a2, a3] [b0, b1, b2, b3] ++ (F ++ NT))) 0 (64 + 324) =
      packBin5 (-chk) wfmV noteV ++ (packWave5core npntsV tyc bn [n0, n1, n2, n3] [a0, a1, a2, a3] [b0, b1, b2, b3] ++ F.take 4) := by
    rw [show (64 + 324 : Nat) = 388 from rfl]
    rw [show (packBin5 (-chk) wfmV noteV) ++ ((packWave5core npntsV tyc bn [n0, n1, n2, n3] [a0, a1, a2, a3] [b0, b1, b2, b3]) ++ (F ++ NT)) = ((packBin5 (-chk) wfmV noteV) ++ (packWave5core npntsV tyc bn [n0, n1, n2, n3] [a0, a1, a2, a3] [b0, b1, b2, b3])) ++ (F ++ NT) from
      (List.append_assoc _ _ _).symm]
    simp only [sliceB, List.drop_zero]
    rw [List.take_append_eq_append_take]
    rw [List.take_of_length_le
      (by simp only [List.length_append, packBin5_length, hcore320]; omega)]
    rw [show ((packBin5 (-chk) wfmV noteV) ++ (packWave5core npntsV tyc bn [n0, n1, n2, n3] [a0, a1, a2, a3] [b0, b1, b2, b3])).length = 384 from by
      simp only [List.length_append, packBin5_length, hcore320]]
    rw [show (388 - 384 : Nat) = 4 from rfl]
    rw [List.take_append_of_le_length (by omega)]
    rw [List.append_assoc]
  have hdv : detectVersion (packBin5 (-chk) wfmV noteV ++ (packWave5core npntsV tyc bn [n0, n1, n2, n3] [a0, a1, a2, a3] [b0, b1, b2, b3] ++ (F ++ NT))) 0 = some (5, .little) :=
    detectVersion_packed _ _ _ _
  have hc : checksum (sliceB (packBin5 (-chk) wfmV noteV ++ (packWave5core npntsV tyc bn [n0, n1, n2, n3] [a0, a1, a2, a3] [b0, b1, b2, b3] ++ (F ++ NT))) 0 (64 + 324)) .little 0 384 =
      .ok 0 := by
    rw [hb]
    exact hr0
  have hlenB : 64 + 324 ≤ (sliceB (packBin5 (-chk) wfmV noteV ++ (packWave5core npntsV tyc bn [n0, n1, n2, n3] [a0, a1, a2, a3] [b0, b1, b2, b3] ++ (F ++ NT))) 0 (64 + 324)).length := by
    rw [hb]
    simp only [List.length_append, packBin5_length, hcore320, List.length_take]
    omega
  have hlast : takeLastB (((packBin5 (-chk) wfmV noteV) ++ (packWave5core npntsV tyc bn [n0, n1, n2, n3] [a0, a1, a2, a3] [b0, b1, b2, b3])) ++ F.take 4) 4 = F.take 4 := by
    unfold takeLastB
    rw [show (((packBin5 (-chk) wfmV noteV) ++ (packWave5core npntsV tyc bn [n0, n1, n2, n3] [a0, a1, a2, a3] [b0, b1, b2, b3])) ++ F.take 4).length = 388 from by
      simp only [List.length_append, packBin5_length, hcore320, List.length_take]
      omega]
    rw [show (388 - 4 : Nat) = 384 from rfl]
    rw [show (384 : Nat) = ((packBin5 (-chk) wfmV noteV) ++ (packWave5core npntsV tyc bn [n0, n1, n2, n3] [a0, a1, a2, a3] [b0, b1, b2, b3])).length from by
      simp only [List.length_append, packBin5_length, hcore320]]
    rw [List.drop_left]
  rw [wave_read_header_eval _ 0 5 .little 64 324 384 hdv (by decide) hc hlenB]
  simp only [hb]
  rw [unpackBin5_of_packed (-chk) _ _ _ hwfm1 hwfm2 hnote1 hnote2]
  rw [show (packBin5 (-chk) wfmV noteV) ++ ((packWave5core npntsV tyc bn [n0, n1, n2, n3] [a0, a1, a2, a3] [b0, b1, b2, b3]) ++ F.take 4) = ((packBin5 (-chk) wfmV noteV) ++ (packWave5core npntsV tyc bn [n0, n1, n2, n3] [a0, a1, a2, a3] [b0, b1, b2, b3])) ++ F.take 4 from
    (List.append_assoc _ _ _).symm]
  rw [unpackWave5_of_packed (-chk) _ _ _ tyc _ n0 n1 n2 n3 a0 a1 a2 a3 b0 b1 b2 b3 _
    hb32 ha0 ha1 ha2 ha3 hb0 hb1 hb2 hb3 hnp1 hnp2 htyc
    hn0.1 hn0.2 hn1.1 hn1.2 hn2.1 hn2.2 hn3.1 hn3.2]
  simp only [if_true]
  rw [hlast]

/-- Decoding the data block of a freshly written v5 stream: symbolic in
the header records, connected to the stream layout by value hypotheses. -/
theorem c1_read_data (HDR F NT : Bytes) (shape : List Nat) (ty : IgorTy)
    (elemsL : List Bytes) (wi : WaveInfoM) (bi : BinInfoM)
    (hHDR : HDR.length = 384)
    (hty : wi.type = ((tyCode ty : Nat) : Int))
    (hnp : wi.npnts * ((tyItemsize ty : Nat) : Int) = bi.wave_data_size)
    (hver : bi.version = 5)
    (hfil : wi.nDim.filter (fun n => 0 < n) = shape.map Int.ofNat)
    (htail : bi.tail_size = 4)
    (htaildata : bi.tail_data = F.take 4)
    (hbo : bi.byte_order = .little)
    (hwds : bi.wave_data_size = Int.ofNat (shape.prod * tyItemsize ty))
    (hFlen : F.length = shape.prod * tyItemsize ty)
    (hD4 : 4 ≤ shape.prod * tyItemsize ty)
    (hchunks : chunksOf (tyItemsize ty) F = elemsL) :
    wave_read_data (HDR ++ (F ++ NT)) 388 wi bi =
      .ok ({ shape := shape.map Int.ofNat, itemsize := tyItemsize ty, elems := elemsL,
             raw := F },
           384 + shape.prod * tyItemsize ty) := by
  obtain ⟨comp, httbl⟩ : ∃ c, TYPE_TABLE_sizes ((tyCode ty : Nat) : Int) =
      some (tyItemsize ty, c) := by
    cases ty <;> exact ⟨_, rfl⟩
  have hreadF : readF (HDR ++ (F ++ NT)) 388
      (Int.ofNat (shape.prod * tyItemsize ty) - ((4 : Nat) : Int)) =
      (F.drop 4, 384 + shape.prod * tyItemsize ty) := by
    unfold readF
    rw [if_neg (by simp only [intOfNat_cast]; omega)]
    have htn : (Int.ofNat (shape.prod * tyItemsize ty) - ((4 : Nat) : Int)).toNat =
        shape.prod * tyItemsize ty - 4 := by
      simp only [intOfNat_cast]
      omega
    rw [htn]
    have hsl : sliceB (HDR ++ (F ++ NT)) 388 (shape.prod * tyItemsize ty - 4) =
        F.drop 4 := by
      rw [sliceB_skip _ _ _ _ (by rw [hHDR]; omega)]
      rw [hHDR]
      rw [show (388 - 384 : Nat) = 4 from rfl]
      simp only [sliceB]
      rw [List.drop_append_eq_append_drop]
      rw [show (4 - F.length : Nat) = 0 from by omega]
      rw [List.drop_zero]
      rw [List.take_append_of_le_length (by rw [List.length_drop, hFlen])]
      exact List.take_of_length_le (by rw [List.length_drop, hFlen])
    rw [hsl]
    have hmin : min (388 + (shape.prod * tyItemsize ty - 4)) (HDR ++ (F ++ NT)).length =
        384 + shape.prod * tyItemsize ty := by
      simp only [List.length_append, hHDR, hFlen]
      omega
    rw [hmin]
  unfold wave_read_data
  rw [hty]
  simp only [httbl]
  rw [if_neg (not_ne_iff.mpr hnp.symm)]
  rw [hver]
  rw [if_pos (rfl : (5 : Int) = 5)]
  rw [hfil]
  rw [if_neg (by
    simp only [List.any_eq_true, not_exists]
    intro x
    simp only [List.mem_map, decide_eq_true_eq, not_and]
    intro hx
    obtain ⟨k, _, rfl⟩ := hx
    rw [intOfNat_cast]
    omega)]
  rw [hwds, htail]
  simp only [hreadF]
  rw [htaildata]
  rw [List.take_append_drop]
  rw [map_toNat_map_ofNat]
  rw [if_neg (by rw [hFlen]; omega)]
  have htk : F.take (shape.prod * tyItemsize ty) = F := List.take_of_length_le (by omega)
  rw [htk, hchunks]
  rw [hbo]
  rw [if_neg (by decide)]

theorem readSeq_zeros (s : Bytes) (p : Nat) (hp : p ≤ s.length) :
    readSeq s p [0, 0, 0, 0] = p := by
  have h0 : readF s p 0 = ([], p) := readF_zero s p hp
  simp [readSeq, h0]

/-- Decoding the post-data trailer of a freshly written v5 stream. -/
theorem c1_read_info (HDR F NT : Bytes) (pos : Nat) (wi : WaveInfoM) (bi : BinInfoM)
    (hHDR : HDR.length = 384)
    (hposF : pos = 384 + F.length)
    (hver : bi.version = 5)
    (hform : bi.formulaSize = 0)
    (hnoteS : bi.noteSize = Int.ofNat NT.length)
    (hdataE : bi.dataEUnitsSize = 0)
    (hdimE : bi.dimEUnitsSize = [0, 0, 0, 0])
    (hdimL : bi.dimLabelsSize = [0, 0, 0, 0])
    (htyNZ : ¬ wi.type = 0) :
    ∃ pend, wave_read_info (HDR ++ (F ++ NT)) pos wi bi =
      .ok ({ bi with note := stripB NT, formula := [] }, pend) := by
  have hslen : (HDR ++ (F ++ NT)).length = 384 + F.length + NT.length := by
    simp only [List.length_append, hHDR]
    omega
  have hnoteF : readF (HDR ++ (F ++ NT)) (384 + F.length) (Int.ofNat NT.length) =
      (NT, min (384 + F.length + NT.length) (HDR ++ (F ++ NT)).length) := by
    unfold readF
    rw [if_neg (by simp only [intOfNat_cast]; omega)]
    have htn : (Int.ofNat NT.length).toNat = NT.length := by
      simp only [intOfNat_cast]
      omega
    rw [htn]
    have hsl : sliceB (HDR ++ (F ++ NT)) (384 + F.length) NT.length = NT := by
      rw [sliceB_skip _ _ _ _ (by rw [hHDR]; omega)]
      rw [hHDR]
      rw [show (384 + F.length - 384 : Nat) = F.length from by omega]
      rw [sliceB_skip _ _ _ _ le_rfl]
      rw [Nat.sub_self]
      exact sliceB_self _ _ rfl
    rw [hsl]
  apply Exists.intro
  unfold wave_read_info
  rw [hver]
  rw [if_neg (by decide), if_neg (by decide), if_neg (by decide)]
  rw [hform, hposF]
  rw [readF_zero _ _ (by rw [hslen]; omega)]
  rw [hnoteS]
  simp only [hnoteF]
  rw [hdataE]
  rw [readF_zero _ _ (by rw [hslen]; omega)]
  rw [hdimE]
  rw [readSeq_zeros _ _ (by rw [hslen]; omega)]
  rw [hdimL]
  rw [readSeq_zeros _ _ (by rw [hslen]; omega)]
  rw [if_neg htyNZ]
  rfl

set_option maxHeartbeats 1000000 in
/--
Claim C1 (corrected): for every wave with 1 to 4 dimensions, all of them
positive, a dtype from the element-type table, an `info` name that is a
string of at most 31 bytes, per-axis scale doubles, at least 4 bytes of
data, total sizes below `2^31`, and a generated note that parses back
cleanly without introducing a top-level `name` entry, reading back a
written stream recovers the shape, the element byte values and the
per-dimension scale pairs exactly — but the name comes back as the
fixed-width field: the original name null-padded to 32 bytes, not the
original name itself.
-/
theorem C1_amended_roundtrip (w : WaveIn) (path wname : Bytes) (nm : PyVal)
    (hlen1 : 1 ≤ w.shape.length) (hlen4 : w.shape.length ≤ 4)
    (hpos : ∀ n ∈ w.shape, 0 < n)
    (helems : w.elemsF.length = w.shape.prod)
    (helemE : ∀ e ∈ w.elemsF, e.length = tyItemsize w.ty)
    (hname : pyDictLookup w.info (bs "name") = some (.str wname))
    (hnlen : wname.length ≤ 31) (hnby : ∀ b ∈ wname, b < 256)
    (hdel : w.deltas.length = w.shape.length)
    (hdelE : ∀ d ∈ w.deltas, d.length = 8 ∧ ∀ b ∈ d, b < 256)
    (hoff : w.offsets.length = w.shape.length)
    (hoffE : ∀ d ∈ w.offsets, d.length = 8 ∧ ∀ b ∈ d, b < 256)
    (hD4 : 4 ≤ w.shape.prod * tyItemsize w.ty)
    (hD31 : w.shape.prod * tyItemsize w.ty + 320 < 2 ^ 31)
    (hN31 : (wave_note_generate w.info).length < 2 ^ 31)
    (hparse : wave_note_parse_simple (stripB (wave_note_generate w.info)) = .ok nm)
    (hnm : pyDictLookup nm (bs "name") = none) :
    ((wave_write w none).bind (fun out => wave_read out path)).map
        (fun r => (r.arr.shape, r.arr.elems, pyDictLookup r.info (bs "name"), r.scales)) =
      .ok (w.shape.map Int.ofNat, w.elemsF,
           some (.str (wname ++ List.replicate (32 - wname.length) 0)),
           w.deltas.zip w.offsets) := by
  obtain ⟨chk, n0, n1, n2, n3, a0, a1, a2, a3, b0, b1, b2, b3, hnDim, hA, hB,
      ⟨ha0, ha1, ha2, ha3⟩, ⟨hb0, hb1, hb2, hb3⟩, ⟨hn0, hn1, hn2, hn3⟩, hcore320, hr, hwr⟩ :=
    wave_write_eval w wname hlen1 hlen4 hpos hname hnlen hnby hdel hdelE hoff hoffE hD4 hD31
  have hiszpos : 0 < tyItemsize w.ty := by cases w.ty <;> decide
  have hprodle : w.shape.prod ≤ w.shape.prod * tyItemsize w.ty :=
    Nat.le_mul_of_pos_right _ hiszpos
  have hprod31 : w.shape.prod < 2 ^ 31 := by omega
  have hFlen : (w.elemsF.flatten).length = w.shape.prod * tyItemsize w.ty := by
    rw [flatten_length_uniform w.elemsF (tyItemsize w.ty) helemE, helems]
  have hb32f : (wname ++ List.replicate (32 - wname.length) 0).length = 32 := by
    simp
    omega
  have hty15 : tyCode w.ty < 2 ^ 15 := by cases w.ty <;> decide
  have htyne : ¬ ((tyCode w.ty : Nat) : Int) = 0 := by cases w.ty <;> decide
  have hhdr := c1_read_header chk ((WaveHeader5_size : Int) + ((w.shape.prod * tyItemsize w.ty : Nat) : Int) - 4) ((wave_note_generate w.info).length : Int) ((w.shape.prod : Nat) : Int) (tyCode w.ty) (wname ++ List.replicate (32 - wname.length) 0)
    n0 n1 n2 n3 a0 a1 a2 a3 b0 b1 b2 b3 (w.elemsF.flatten) (wave_note_generate w.info)
    hb32f ha0 ha1 ha2 ha3 hb0 hb1 hb2 hb3 hn0 hn1 hn2 hn3
    (by simp only [WaveHeader5_size]; omega)
    (by simp only [WaveHeader5_size]; omega)
    (by omega) (by omega) (by omega) (by omega) hty15
    (by omega)
    (hr _)
  have hHDR384 : ((packBin5 (-chk) ((WaveHeader5_size : Int) + ((w.shape.prod * tyItemsize w.ty : Nat) : Int) - 4) ((wave_note_generate w.info).length : Int)) ++ (packWave5core ((w.shape.prod : Nat) : Int) (tyCode w.ty) (wname ++ List.replicate (32 - wname.length) 0) [n0, n1, n2, n3] [a0, a1, a2, a3] [b0, b1, b2, b3])).length = 384 := by
    simp only [List.length_append, packBin5_length, hcore320]
  have hchunks : chunksOf (tyItemsize w.ty) (w.elemsF.flatten) = w.elemsF :=
    chunksOf_flatten _ hiszpos _ helemE
  have hdata := c1_read_data ((packBin5 (-chk) ((WaveHeader5_size : Int) + ((w.shape.prod * tyItemsize w.ty : Nat) : Int) - 4) ((wave_note_generate w.info).length : Int)) ++ (packWave5core ((w.shape.prod : Nat) : Int) (tyCode w.ty) (wname ++ List.replicate (32 - wname.length) 0) [n0, n1, n2, n3] [a0, a1, a2, a3] [b0, b1, b2, b3])) (w.elemsF.flatten) (wave_note_generate w.info) w.shape w.ty w.elemsF
    ({ type := ((tyCode w.ty : Nat) : Int), npnts := ((w.shape.prod : Nat) : Int), bname := (wname ++ List.replicate (32 - wname.length) 0), name := (wname ++ List.replicate (32 - wname.length) 0), nDim := [n0, n1, n2, n3], sfA := [a0, a1, a2, a3], sfB := [b0, b1, b2, b3], hasSf := true } : WaveInfoM) ({ version := 5, wfmSize := ((WaveHeader5_size : Int) + ((w.shape.prod * tyItemsize w.ty : Nat) : Int) - 4), noteSize := ((wave_note_generate w.info).length : Int), formulaSize := 0, dataEUnitsSize := 0, dimEUnitsSize := [0, 0, 0, 0], dimLabelsSize := [0, 0, 0, 0], sIndicesSize := 0, tail_size := 4, wave_data_size := ((WaveHeader5_size : Int) + ((w.shape.prod * tyItemsize w.ty : Nat) : Int) - 4) - (((324 : Nat) : Int) - ((4 : Nat) : Int)), tail_data := w.elemsF.flatten.take 4, byte_order := .little, note := [], formula := [] } : BinInfoM)
    hHDR384 rfl
    (by simp only [WaveHeader5_size]; push_cast; ring)
    rfl
    (by rw [show (({ type := ((tyCode w.ty : Nat) : Int), npnts := ((w.shape.prod : Nat) : Int), bname := (wname ++ List.replicate (32 - wname.length) 0), name := (wname ++ List.replicate (32 - wname.length) 0), nDim := [n0, n1, n2, n3], sfA := [a0, a1, a2, a3], sfB := [b0, b1, b2, b3], hasSf := true } : WaveInfoM)).nDim = [n0, n1, n2, n3] from rfl, ← hnDim]
        exact filter_pos_of_padded w.shape _ hpos)
    rfl rfl rfl
    (by simp only [intOfNat_cast, WaveHeader5_size]; push_cast; ring)
    hFlen hD4 hchunks
  obtain ⟨pend, hinfoE⟩ := c1_read_info ((packBin5 (-chk) ((WaveHeader5_size : Int) + ((w.shape.prod * tyItemsize w.ty : Nat) : Int) - 4) ((wave_note_generate w.info).length : Int)) ++ (packWave5core ((w.shape.prod : Nat) : Int) (tyCode w.ty) (wname ++ List.replicate (32 - wname.length) 0) [n0, n1, n2, n3] [a0, a1, a2, a3] [b0, b1, b2, b3])) (w.elemsF.flatten) (wave_note_generate w.info)
    (384 + w.shape.prod * tyItemsize w.ty) ({ type := ((tyCode w.ty : Nat) : Int), npnts := ((w.shape.prod : Nat) : Int), bname := (wname ++ List.replicate (32 - wname.length) 0), name := (wname ++ List.replicate (32 - wname.length) 0), nDim := [n0, n1, n2, n3], sfA := [a0, a1, a2, a3], sfB := [b0, b1, b2, b3], hasSf := true } : WaveInfoM) ({ version := 5, wfmSize := ((WaveHeader5_size : Int) + ((w.shape.prod * tyItemsize w.ty : Nat) : Int) - 4), noteSize := ((wave_note_generate w.info).length : Int), formulaSize := 0, dataEUnitsSize := 0, dimEUnitsSize := [0, 0, 0, 0], dimLabelsSize := [0, 0, 0, 0], sIndicesSize := 0, tail_size := 4, wave_data_size := ((WaveHeader5_size : Int) + ((w.shape.prod * tyItemsize w.ty : Nat) : Int) - 4) - (((324 : Nat) : Int) - ((4 : Nat) : Int)), tail_data := w.elemsF.flatten.take 4, byte_order := .little, note := [], formula := [] } : BinInfoM)
    hHDR384 (by rw [hFlen]) rfl rfl (by rw [intOfNat_cast]) rfl rfl rfl htyne
  have hlookbase : pyDictLookup (pyDictUpdate
      (PyVal.dictCons (bs "name") (.str (wname ++ List.replicate (32 - wname.length) 0)) .dictNil) nm) (bs "name") =
      some (.str (wname ++ List.replicate (32 - wname.length) 0)) := by
    rw [pyDictUpdate_lookup_of_none nm _ _ hnm]
    simp [pyDictLookup]
  have hscales : (List.range (w.shape.map Int.ofNat).length).map (fun i =>
      (doubleLE ByteOrder.little ([a0, a1, a2, a3].getD i []),
       doubleLE ByteOrder.little ([b0, b1, b2, b3].getD i []))) =
      w.deltas.zip w.offsets := by
    simp only [doubleLE, List.length_map]
    rw [← hA, ← hB]
    have hstep : ∀ i ∈ List.range w.shape.length,
        ((w.deltas ++ List.replicate (4 - w.shape.length) zeros8).getD i [],
         (w.offsets ++ List.replicate (4 - w.shape.length) zeros8).getD i []) =
        (w.deltas.getD i [], w.offsets.getD i []) := by
      intro i hi
      rw [List.mem_range] at hi
      rw [List.getD_append _ _ _ _ (by omega), List.getD_append _ _ _ _ (by omega)]
    rw [List.map_congr_left hstep]
    exact range_map_getD_zip w.deltas w.offsets w.shape.length hdel hoff
  rw [hwr, except_ok_bind]
  unfold wave_read
  simp only [hhdr]
  rw [if_neg htyne]
  rw [show (packBin5 (-chk) ((WaveHeader5_size : Int) + ((w.shape.prod * tyItemsize w.ty : Nat) : Int) - 4) ((wave_note_generate w.info).length : Int)) ++ ((packWave5core ((w.shape.prod : Nat) : Int) (tyCode w.ty) (wname ++ List.replicate (32 - wname.length) 0) [n0, n1, n2, n3] [a0, a1, a2, a3] [b0, b1, b2, b3]) ++ ((w.elemsF.flatten) ++ (wave_note_generate w.info))) =
      ((packBin5 (-chk) ((WaveHeader5_size : Int) + ((w.shape.prod * tyItemsize w.ty : Nat) : Int) - 4) ((wave_note_generate w.info).length : Int)) ++ (packWave5core ((w.shape.prod : Nat) : Int) (tyCode w.ty) (wname ++ List.replicate (32 - wname.length) 0) [n0, n1, n2, n3] [a0, a1, a2, a3] [b0, b1, b2, b3])) ++ ((w.elemsF.flatten) ++ (wave_note_generate w.info)) from (List.append_assoc _ _ _).symm]
  simp only [hdata]
  simp only [hinfoE]
  simp only [hparse]
  by_cases hp : path.length > 0
  · rw [if_pos hp]
    simp only [Except.map]
    rw [pyDictLookup_set_ne _ _ _ _ (by decide), hlookbase, hscales]
    simp only [if_true]
  · rw [if_neg hp]
    simp only [Except.map]
    rw [hlookbase, hscales]
    simp only [if_true]

set_option maxRecDepth 8000 in
/--
Claim C1 counterexample: the claim says the wave NAME round-trips exactly.
Writing the one-point wave named `w` and reading it back yields the name
as the fixed 32-byte field `w` followed by 31 null bytes — `''.join` of
`bname` on the reader side never strips the padding — which differs from
the original name.
-/
theorem C1_counterexample :
    ((wave_write c1wave none).bind (fun out => wave_read out (bs "p"))).map
        (fun r => pyDictLookup r.info (bs "name")) =
      .ok (some (.str (bs "w" ++ List.replicate 31 0))) ∧
    bs "w" ++ List.replicate 31 0 ≠ bs "w" := by
  constructor
  · decide
  · decide

set_option maxRecDepth 8000 in
/-- Witness for C1 (corrected): the round-trip theorem applied to the
concrete wave `c1wave`, every hypothesis discharged by evaluation. -/
theorem C1_amended_witness :
    ((wave_write c1wave none).bind (fun out => wave_read out (bs "p"))).map
        (fun r => (r.arr.shape, r.arr.elems, pyDictLookup r.info (bs "name"), r.scales)) =
      .ok (c1wave.shape.map Int.ofNat, c1wave.elemsF,
           some (.str (bs "w" ++ List.replicate (32 - (bs "w").length) 0)),
           c1wave.deltas.zip c1wave.offsets) :=
  C1_amended_roundtrip c1wave (bs "p") (bs "w") c1nm
    (by decide) (by decide) (by decide) (by decide) (by decide) (by decide)
    (by decide) (by decide) (by decide) (by decide) (by decide) (by decide)
    (by decide) (by decide) (by decide) (by decide) (by decide)

end Igor
